import Mathlib

/-!
# Verification of the Pace browser extension's annotation pipeline

This development gives a shallow embedding, in Lean 4, of the core pure
logic of the Pace extension (a StreetEasy commute-time annotator):

* the `LRUCache` class of the content script (bounded, TTL-expiring map,
  backed by a JS `Map` whose insertion order is modelled as a list whose
  head is the oldest entry);
* the address validator and the "address-like" heuristics (JS regexes are
  modelled as executable character-list matchers with word-boundary
  semantics; the ASCII fragment of the JS `\s`, `\w`, `\d` classes is
  used, which covers every string the theorems mention);
* page classification (`isListingPage` / `isSearchResultsPage`);
* search-card address extraction (`extractAddressFromCard` and friends;
  DOM queries are abstracted as pre-extracted text fields of a `Card`
  record, everything after the queries is translated from the source);
* the retry loop `getCommuteTimeForAddress` (the service-worker round
  trip is abstracted as an oracle giving the outcome of each attempt);
* the routing-response handler `fetchTransitRoute` of the service worker;
* the search-results request scheduler (queue, concurrency counter,
  pending-request table, dedup and navigation teardown), modelled as a
  state machine whose events are work-item submissions, resolution
  completions, and SPA navigations.

Theorems named `Cn...` settle the corresponding specification claims.
-/

namespace Pace

/-! ## Character classes (ASCII fragment of the JS regex classes) -/

def isWsChar (c : Char) : Bool :=
  c = ' ' || c = '\t' || c = '\n' || c = '\r' || c = '\x0b' || c = '\x0c'

def isDigitChar (c : Char) : Bool := '0' ≤ c && c ≤ '9'

def isAlphaChar (c : Char) : Bool :=
  ('a' ≤ c && c ≤ 'z') || ('A' ≤ c && c ≤ 'Z')

def isWordChar (c : Char) : Bool := isAlphaChar c || isDigitChar c || c = '_'

def lowerChar (c : Char) : Char :=
  if 'A' ≤ c && c ≤ 'Z' then Char.ofNat (c.toNat + 32) else c

def lowerL (l : List Char) : List Char := l.map lowerChar

def toL (s : String) : List Char := s.toList

/-- JS `String.prototype.trim()` on a character list. -/
def jsTrimL (l : List Char) : List Char :=
  ((l.dropWhile isWsChar).reverse.dropWhile isWsChar).reverse

/-! ## The LRU cache with TTL (content script, `class LRUCache`)

The JS `Map` iterates in insertion order; `keys().next().value` is the
head of our list.  `Date.now()` is passed in explicitly as `now`. -/

structure CacheEntry (α : Type) where
  value : α
  timestamp : Nat
deriving Repr, DecidableEq

structure LRUCache (α : Type) where
  maxSize : Nat
  ttlMs : Nat
  entries : List (String × CacheEntry α)
deriving Repr, DecidableEq

/-- JS `Map.prototype.get` / lookup of the single entry stored for a key. -/
def lookupKey {α : Type} : List (String × CacheEntry α) → String → Option (CacheEntry α)
  | [], _ => none
  | (k', e) :: rest, k => if k' = k then some e else lookupKey rest k

/-- JS `Map.prototype.delete`: removes the (unique) entry for a key. -/
def eraseKey {α : Type} : List (String × CacheEntry α) → String → List (String × CacheEntry α)
  | [], _ => []
  | (k', e) :: rest, k => if k' = k then rest else (k', e) :: eraseKey rest k

/-- Method `LRUCache.has(key)`: false if absent or expired; expired entries are
deleted as a side effect, so the updated cache is returned as well. -/
def LRUCache.hasOp {α : Type} (c : LRUCache α) (k : String) (now : Nat) :
    Bool × LRUCache α :=
  match lookupKey c.entries k with
  | none => (false, c)
  | some e =>
    if c.ttlMs < now - e.timestamp then
      (false, { c with entries := eraseKey c.entries k })
    else (true, c)

/-- Method `LRUCache.get(key)`: returns the value if `has` is true and re-inserts
the entry at the end of the map (most recently used). -/
def LRUCache.getOp {α : Type} (c : LRUCache α) (k : String) (now : Nat) :
    Option α × LRUCache α :=
  match c.hasOp k now with
  | (false, c1) => (none, c1)
  | (true, c1) =>
    match lookupKey c1.entries k with
    | none => (none, c1)
    | some e => (some e.value, { c1 with entries := eraseKey c1.entries k ++ [(k, e)] })

/-- The `while (this.cache.size >= this.maxSize)` eviction loop: drops the
oldest (head) entry while the size is at least `maxSize`.  (When
`maxSize = 0` and the map is empty the JS loop never terminates; the
model stops on the empty list.  All instances in the source use
`maxSize = 100`.) -/
def evictOldest {α : Type} (maxSize : Nat) :
    List (String × CacheEntry α) → List (String × CacheEntry α)
  | [] => []
  | x :: xs => if maxSize ≤ xs.length + 1 then evictOldest maxSize xs else x :: xs

/-- The entries of the cache after the delete-if-present and evict-while-full
steps of `LRUCache.set`, before the new entry is appended. -/
def LRUCache.setOpBase {α : Type} (c : LRUCache α) (k : String) :
    List (String × CacheEntry α) :=
  evictOldest c.maxSize
    (if (lookupKey c.entries k).isSome then eraseKey c.entries k else c.entries)

/-- Method `LRUCache.set(key, value)`: delete an existing entry for the key,
evict oldest entries while at capacity, insert at the end. -/
def LRUCache.setOp {α : Type} (c : LRUCache α) (k : String) (v : α) (now : Nat) :
    LRUCache α :=
  { c with entries := c.setOpBase k ++ [(k, ⟨v, now⟩)] }

/-- Method `LRUCache.clear()`. -/
def LRUCache.clearOp {α : Type} (c : LRUCache α) : LRUCache α :=
  { c with entries := [] }

/-- Well-formedness: a JS `Map` stores at most one entry per key. -/
def LRUCache.wf {α : Type} (c : LRUCache α) : Prop :=
  (c.entries.map Prod.fst).Nodup

/-! ### Cache lemmas -/

theorem lookupKey_none_iff {α : Type} (l : List (String × CacheEntry α)) (k : String) :
    lookupKey l k = none ↔ k ∉ l.map Prod.fst := by
  induction l with
  | nil => simp [lookupKey]
  | cons x rest ih =>
    obtain ⟨k', e⟩ := x
    by_cases h : k' = k
    · subst h; simp [lookupKey]
    · simp only [lookupKey, h, if_false, List.map_cons, List.mem_cons]
      rw [ih]
      constructor
      · intro hn
        push_neg
        exact ⟨fun hk => h hk.symm, hn⟩
      · intro hn
        push_neg at hn
        exact hn.2

theorem eraseKey_sublist {α : Type} (l : List (String × CacheEntry α)) (k : String) :
    (eraseKey l k).Sublist l := by
  induction l with
  | nil => simp [eraseKey]
  | cons x rest ih =>
    obtain ⟨k', e⟩ := x
    by_cases h : k' = k
    · simp [eraseKey, h]
    · simp only [eraseKey, h, if_false]
      exact List.Sublist.cons₂ (k', e) ih

theorem eraseKey_not_mem {α : Type} (l : List (String × CacheEntry α)) (k : String)
    (h : (l.map Prod.fst).Nodup) : k ∉ (eraseKey l k).map Prod.fst := by
  induction l with
  | nil => simp [eraseKey]
  | cons x rest ih =>
    obtain ⟨k', e⟩ := x
    simp only [List.map_cons, List.nodup_cons] at h
    by_cases hk : k' = k
    · subst hk
      simpa [eraseKey] using h.1
    · simp only [eraseKey, hk, if_false, List.map_cons, List.mem_cons]
      push_neg
      refine ⟨fun hkk => hk hkk.symm, ?_⟩
      intro hmem
      exact (ih h.2) hmem

theorem evictOldest_suffix {α : Type} (m : Nat) (l : List (String × CacheEntry α)) :
    ∃ k, evictOldest m l = l.drop k := by
  induction l with
  | nil => exact ⟨0, rfl⟩
  | cons x xs ih =>
    by_cases h : m ≤ xs.length + 1
    · obtain ⟨k, hk⟩ := ih
      exact ⟨k + 1, by simpa [evictOldest, h] using hk⟩
    · exact ⟨0, by simp [evictOldest, h]⟩

theorem evictOldest_length_lt {α : Type} (m : Nat) (hm : 0 < m)
    (l : List (String × CacheEntry α)) : (evictOldest m l).length < m := by
  induction l with
  | nil => simpa [evictOldest] using hm
  | cons x xs ih =>
    by_cases h : m ≤ xs.length + 1
    · simpa [evictOldest, h] using ih
    · simp only [evictOldest, h, if_false, List.length_cons]
      omega

theorem evictOldest_of_length_lt {α : Type} (m : Nat) (l : List (String × CacheEntry α))
    (h : l.length < m) : evictOldest m l = l := by
  cases l with
  | nil => rfl
  | cons x xs =>
    simp only [List.length_cons] at h
    have hn : ¬ m ≤ xs.length + 1 := by omega
    simp [evictOldest, hn]

theorem evictOldest_full {α : Type} (m : Nat) (hm : 0 < m)
    (l : List (String × CacheEntry α)) (h : l.length = m) :
    evictOldest m l = l.tail := by
  cases l with
  | nil => simp at h; omega
  | cons x xs =>
    simp only [List.length_cons] at h
    have h1 : m ≤ xs.length + 1 := by omega
    have h2 : xs.length < m := by omega
    simp [evictOldest, h1, evictOldest_of_length_lt m xs h2]

theorem lookupKey_append_self {α : Type} (l : List (String × CacheEntry α))
    (k : String) (e : CacheEntry α) (h : k ∉ l.map Prod.fst) :
    lookupKey (l ++ [(k, e)]) k = some e := by
  induction l with
  | nil => simp [lookupKey]
  | cons x rest ih =>
    obtain ⟨k', e'⟩ := x
    simp only [List.map_cons, List.mem_cons] at h
    push_neg at h
    simp only [List.cons_append, lookupKey, Ne.symm h.1, if_false]
    exact ih h.2

theorem eraseKey_append_self {α : Type} (l : List (String × CacheEntry α))
    (k : String) (e : CacheEntry α) (h : k ∉ l.map Prod.fst) :
    eraseKey (l ++ [(k, e)]) k = l := by
  induction l with
  | nil => simp [eraseKey]
  | cons x rest ih =>
    obtain ⟨k', e'⟩ := x
    simp only [List.map_cons, List.mem_cons] at h
    push_neg at h
    simp only [List.cons_append, eraseKey, Ne.symm h.1, if_false]
    exact congrArg (List.cons (k', e')) (ih h.2)

theorem setOp_entries {α : Type} (c : LRUCache α) (k : String) (v : α) (now : Nat) :
    (c.setOp k v now).entries = c.setOpBase k ++ [(k, ⟨v, now⟩)] := rfl

theorem setOp_ttlMs {α : Type} (c : LRUCache α) (k : String) (v : α) (now : Nat) :
    (c.setOp k v now).ttlMs = c.ttlMs := rfl

theorem getOp_none_of_absent {α : Type} (c : LRUCache α) (k : String) (now : Nat)
    (h : lookupKey c.entries k = none) : (c.getOp k now).1 = none := by
  simp [LRUCache.getOp, LRUCache.hasOp, h]

theorem setOp_base_not_mem {α : Type} (c : LRUCache α) (k : String)
    (hwf : c.wf) : k ∉ (c.setOpBase k).map Prod.fst := by
  unfold LRUCache.setOpBase
  set l1 := if (lookupKey c.entries k).isSome then eraseKey c.entries k else c.entries
    with hl1
  have hnot : k ∉ l1.map Prod.fst := by
    rw [hl1]
    by_cases h : (lookupKey c.entries k).isSome
    · simpa [h] using eraseKey_not_mem c.entries k hwf
    · simp only [h, if_false]
      rw [Option.not_isSome_iff_eq_none] at h
      exact (lookupKey_none_iff c.entries k).mp h
  obtain ⟨j, hj⟩ := evictOldest_suffix c.maxSize l1
  rw [hj]
  intro hmem
  exact hnot (List.map_subset Prod.fst (List.drop_subset j l1) hmem)

/-- After `set`, the key is present with the just-stored value and
timestamp (well-formed caches). -/
theorem lookupKey_setOp {α : Type} (c : LRUCache α) (k : String) (v : α) (now : Nat)
    (hwf : c.wf) : lookupKey (c.setOp k v now).entries k = some ⟨v, now⟩ := by
  rw [setOp_entries]
  exact lookupKey_append_self _ k ⟨v, now⟩ (setOp_base_not_mem c k hwf)

theorem eraseKey_setOp {α : Type} (c : LRUCache α) (k : String) (v : α) (now : Nat)
    (hwf : c.wf) : eraseKey (c.setOp k v now).entries k = c.setOpBase k := by
  rw [setOp_entries]
  exact eraseKey_append_self _ k ⟨v, now⟩ (setOp_base_not_mem c k hwf)

/-- C5: LRU eviction: on a full, well-formed cache of positive
capacity, `set` of an absent key drops exactly the head of the list (the
least-recently-touched entry, since both `get` and `set` re-insert at the
end) and appends the new entry; `set` never leaves more than `maxSize`
entries; and `get` of a live key moves that entry to the most-recent end,
which is why the evicted key is the least recently *touched*, not merely
the first inserted. -/
theorem C5_lru_eviction (c : LRUCache α) (k : String) (v : α) (now : Nat)
    (hmax : 0 < c.maxSize) :
    (c.entries.length = c.maxSize → lookupKey c.entries k = none →
      (c.setOp k v now).entries = c.entries.tail ++ [(k, ⟨v, now⟩)] ∧
      (c.setOp k v now).entries.length = c.maxSize) ∧
    (c.setOp k v now).entries.length ≤ c.maxSize ∧
    (∀ (k' : String) (e : CacheEntry α), lookupKey c.entries k' = some e →
      now - e.timestamp ≤ c.ttlMs →
      (c.getOp k' now).1 = some e.value ∧
      (c.getOp k' now).2.entries = eraseKey c.entries k' ++ [(k', e)]) := by
  refine ⟨?_, ?_, ?_⟩
  · intro hfull habs
    have h1 : ¬ (lookupKey c.entries k).isSome := by simp [habs]
    have heq : (c.setOp k v now).entries = c.entries.tail ++ [(k, ⟨v, now⟩)] := by
      rw [setOp_entries]
      unfold LRUCache.setOpBase
      rw [if_neg h1, evictOldest_full c.maxSize hmax c.entries hfull]
    constructor
    · exact heq
    · rw [heq]
      cases hcl : c.entries with
      | nil => rw [hcl] at hfull; simp at hfull; omega
      | cons x xs =>
        rw [hcl] at hfull
        simp only [List.length_cons] at hfull
        simp only [List.tail_cons, List.length_append, List.length_cons, List.length_nil]
        omega
  · rw [setOp_entries]
    unfold LRUCache.setOpBase
    have := evictOldest_length_lt c.maxSize hmax
      (if (lookupKey c.entries k).isSome then eraseKey c.entries k else c.entries)
    simp only [List.length_append, List.length_cons, List.length_nil]
    omega
  · intro k' e hfound hfresh
    have hnotexp : ¬ c.ttlMs < now - e.timestamp := by omega
    simp [LRUCache.getOp, LRUCache.hasOp, hfound, hnotexp]

/-- Closed witness for `C5_lru_eviction`: a concrete capacity-2 cache that
holds `a` (older) and `b` (newer); `get a` then moves `a` to the
most-recent end, after which `set` of a fresh key `x` evicts `b`, the
least-recently-touched entry, even though `a` was inserted first. -/
theorem C5_lru_eviction_witness :
    (0 < (2 : Nat)) ∧
    ((LRUCache.mk 2 1000 [("a", ⟨0, 0⟩), ("b", ⟨1, 1⟩)] : LRUCache Nat).getOp "a" 2).2.entries
      = [("b", ⟨1, 1⟩), ("a", ⟨0, 0⟩)] ∧
    ((LRUCache.mk 2 1000 [("b", ⟨1, 1⟩), ("a", ⟨0, 0⟩)] : LRUCache Nat).setOp "x" 7 3).entries
      = [("a", ⟨0, 0⟩), ("x", ⟨7, 3⟩)] := by
  have h1 := C5_lru_eviction (LRUCache.mk 2 1000 [("a", ⟨0, 0⟩), ("b", ⟨1, 1⟩)] : LRUCache Nat)
    "x" 7 3 (by decide)
  have h2 := C5_lru_eviction (LRUCache.mk 2 1000 [("b", ⟨1, 1⟩), ("a", ⟨0, 0⟩)] : LRUCache Nat)
    "x" 7 3 (by decide)
  refine ⟨by decide, ?_, ?_⟩
  · have := (h1.2.2 "a" ⟨0, 0⟩ (by decide) (by decide)).2
    simpa using this
  · have := (h2.1 (by decide) (by decide)).1
    simpa using this

/-- C6: TTL expiry: after `set` at time `t` on a well-formed cache,
once more than `ttlMs` has elapsed, `has` returns false and deletes the
entry as a side effect, and a subsequent `get` returns none; while the
entry is within its TTL, `get` returns the stored value. -/
theorem C6_ttl_expiry (c : LRUCache α) (k : String) (v : α) (t : Nat)
    (hwf : c.wf) :
    (∀ now, c.ttlMs < now - t →
      ((c.setOp k v t).hasOp k now).1 = false ∧
      lookupKey ((c.setOp k v t).hasOp k now).2.entries k = none ∧
      (((c.setOp k v t).hasOp k now).2.getOp k now).1 = none) ∧
    (∀ now, now - t ≤ c.ttlMs → ((c.setOp k v t).getOp k now).1 = some v) := by
  have hfind := lookupKey_setOp c k v t hwf
  have herase := eraseKey_setOp c k v t hwf
  constructor
  · intro now hexp
    have hstate : ((c.setOp k v t).hasOp k now).2.entries =
        eraseKey (c.setOp k v t).entries k := by
      simp [LRUCache.hasOp, hfind, setOp_ttlMs, hexp]
    have hbool : ((c.setOp k v t).hasOp k now).1 = false := by
      simp [LRUCache.hasOp, hfind, setOp_ttlMs, hexp]
    have hgone : lookupKey ((c.setOp k v t).hasOp k now).2.entries k = none := by
      rw [hstate, herase, lookupKey_none_iff]
      exact setOp_base_not_mem c k hwf
    exact ⟨hbool, hgone, getOp_none_of_absent _ k now hgone⟩
  · intro now hfresh
    have hnotexp : ¬ c.ttlMs < now - t := by omega
    simp [LRUCache.getOp, LRUCache.hasOp, hfind, setOp_ttlMs, hnotexp]

/-- Closed witness for `C6_ttl_expiry` at a concrete cache: TTL 1000,
insertion at time 0, probed at times 2000 (expired) and 500 (fresh). -/
theorem C6_ttl_expiry_witness :
    (((LRUCache.mk 100 1000 [] : LRUCache Nat).setOp "k" 5 0).hasOp "k" 2000).1 = false ∧
    (((LRUCache.mk 100 1000 [] : LRUCache Nat).setOp "k" 5 0).getOp "k" 500).1 = some 5 := by
  have h := C6_ttl_expiry (LRUCache.mk 100 1000 [] : LRUCache Nat) "k" 5 0 (by simp [LRUCache.wf])
  exact ⟨(h.1 2000 (by decide)).1, h.2 500 (by decide)⟩

/-! ## Regex-free matchers for the JS regexes of the content script

Each JS regex used by `isAddressLike` / `isValidExtractedAddress` is an
unanchored search (`test`) or an anchored placeholder pattern; they are
modelled as executable matchers on `List Char`.  `\w` is `[A-Za-z0-9_]`,
a `\b` holds where a word character is not adjacent to another word
character (or at the ends of the string). -/

/-- Case-sensitive literal match at the head of the list. -/
def startsWithL : List Char → List Char → Bool
  | [], _ => true
  | _ :: _, [] => false
  | c :: p, d :: h => c = d && startsWithL p h

/-- Case-insensitive literal match at the head of the list. -/
def startsWithCI : List Char → List Char → Bool
  | [], _ => true
  | _ :: _, [] => false
  | c :: p, d :: h => lowerChar c = lowerChar d && startsWithCI p h

/-- JS `String.prototype.includes` / unanchored substring search. -/
def containsSubstrL (needle : List Char) : List Char → Bool
  | [] => startsWithL needle []
  | c :: rest => startsWithL needle (c :: rest) || containsSubstrL needle rest

/-- JS `String.prototype.includes` on strings (`hay.includes(needle)`). -/
def containsSubstrS (hay needle : String) : Bool :=
  containsSubstrL needle.toList hay.toList

/-- Match of `\s+\w` at the head: one or more whitespace characters
followed by a word character. -/
def wsThenWord : List Char → Bool
  | c1 :: c2 :: rest => isWsChar c1 && (isWordChar c2 || wsThenWord (c2 :: rest))
  | _ => false

/-- Match of `\d+\s+\w` at the head (the `/\d+\s+\w+/` street-number
pattern; the trailing `\w+` needs just one word character to succeed). -/
def digitsThenWsWord : List Char → Bool
  | [] => false
  | c :: rest => isDigitChar c && (wsThenWord rest || digitsThenWsWord rest)

/-- Unanchored scan: does `M` match at some position? -/
def scanAny (M : List Char → Bool) : List Char → Bool
  | [] => false
  | c :: rest => M (c :: rest) || scanAny M rest

/-- Case-insensitive literal `t` at the head of `l`, followed by a word
boundary (end of input or a non-word character). -/
def tokenHere : List Char → List Char → Bool
  | [], [] => true
  | [], c :: _ => !isWordChar c
  | _ :: _, [] => false
  | c :: t, d :: l => lowerChar c = lowerChar d && tokenHere t l

/-- Boundary-aware unanchored scan: `M` may only fire at positions
preceded by a non-word character (or the start), which models the
leading `\b` of the token patterns (every token starts with a word
character). -/
def bscan (M : List Char → Bool) : Bool → List Char → Bool
  | _, [] => false
  | prevW, c :: rest => (!prevW && M (c :: rest)) || bscan M (isWordChar c) rest

def anyToken (ts : List (List Char)) (l : List Char) : Bool :=
  ts.any (fun t => tokenHere t l)

/-- Tokens of `\b(street|st|avenue|ave|road|rd|boulevard|blvd|place|pl|way|drive|dr)\b/i` -/
def streetTokens : List (List Char) :=
  ["street", "st", "avenue", "ave", "road", "rd", "boulevard", "blvd",
   "place", "pl", "way", "drive", "dr"].map toL

/-- Tokens of `\b(new york|nyc|brooklyn|manhattan|queens|bronx|staten island)\b/i` -/
def boroughTokens : List (List Char) :=
  ["new york", "nyc", "brooklyn", "manhattan", "queens", "bronx",
   "staten island"].map toL

/-- Tokens of `\b(ny|nyc)\b/i` -/
def nyTokens : List (List Char) := ["ny", "nyc"].map toL

/-- Match of `\b\d{5}\b` at the head: exactly five digits then a boundary (the
leading boundary is handled by `bscan`). -/
def zipHere : List Char → Bool
  | a :: b :: c :: d :: e :: rest =>
    isDigitChar a && isDigitChar b && isDigitChar c && isDigitChar d && isDigitChar e &&
    (match rest with
     | [] => true
     | f :: _ => !isWordChar f)
  | _ => false

/-- Function `isAddressLike(text)` from the content script: length at least 5 and
one of the five NYC-address regexes matches. -/
def isAddressLikeL (l : List Char) : Bool :=
  5 ≤ l.length &&
  (scanAny digitsThenWsWord l ||
   bscan (anyToken streetTokens) false l ||
   bscan (anyToken boroughTokens) false l ||
   bscan (anyToken nyTokens) false l ||
   bscan zipHere false l)

def isAddressLike (s : String) : Bool := isAddressLikeL s.toList

/-- The twelve `invalidPatterns` of `isValidExtractedAddress`, applied to
the trimmed text: `^loading/i`, `^error/i`, `^n\/?a$/i`, `^tbd$/i`,
`^pending/i`, `^unavailable/i`, `^unknown/i`, `^null$/i`,
`^undefined$/i`, `^\.\.\./`, `^-+$`, `^_+$`. -/
def invalidPatternL (t : List Char) : Bool :=
  startsWithCI (toL "loading") t ||
  startsWithCI (toL "error") t ||
  (lowerL t = toL "n/a" || lowerL t = toL "na") ||
  lowerL t = toL "tbd" ||
  startsWithCI (toL "pending") t ||
  startsWithCI (toL "unavailable") t ||
  startsWithCI (toL "unknown") t ||
  lowerL t = toL "null" ||
  lowerL t = toL "undefined" ||
  startsWithL (toL "...") t ||
  (!t.isEmpty && t.all (fun c => c = '-')) ||
  (!t.isEmpty && t.all (fun c => c = '_'))

/-- Test `/[a-zA-Z]/.test`. -/
def hasAlphaL (l : List Char) : Bool := l.any isAlphaChar

/-- Function `isValidExtractedAddress(text)` from the content script.  The initial
`!text || typeof text !== 'string'` guard is subsumed by the length
check (the empty string trims to length 0). -/
def isValidExtractedAddress (s : String) : Bool :=
  let t := jsTrimL s.toList
  if t.length < 5 then false
  else if 200 < t.length then false
  else if invalidPatternL t then false
  else if !hasAlphaL t then false
  else isAddressLikeL t

/-! ### Transfer lemmas: matches on the trimmed string persist on the
original string (trimming only removes whitespace at the two ends, and
whitespace characters are non-word characters, so word boundaries at the
seams are preserved). -/

theorem ws_not_word {c : Char} (h : isWsChar c = true) : isWordChar c = false := by
  simp only [isWsChar, Bool.or_eq_true, decide_eq_true_eq] at h
  rcases h with ((((h | h) | h) | h) | h) | h <;> subst h <;> decide

theorem jsTrimL_decomp (l : List Char) :
    ∃ w1 w2, (∀ c ∈ w1, isWsChar c = true) ∧ (∀ c ∈ w2, isWsChar c = true) ∧
      l = w1 ++ jsTrimL l ++ w2 := by
  refine ⟨l.takeWhile isWsChar,
          ((l.dropWhile isWsChar).reverse.takeWhile isWsChar).reverse, ?_, ?_, ?_⟩
  · intro c hc
    exact List.mem_takeWhile_imp hc
  · intro c hc
    rw [List.mem_reverse] at hc
    exact List.mem_takeWhile_imp hc
  · unfold jsTrimL
    conv_lhs => rw [← List.takeWhile_append_dropWhile isWsChar l]
    rw [List.append_assoc]
    congr 1
    have h := List.takeWhile_append_dropWhile isWsChar (l.dropWhile isWsChar).reverse
    have h2 := congrArg List.reverse h
    rw [List.reverse_append, List.reverse_reverse] at h2
    exact h2.symm

theorem wsThenWord_append (w : List Char) :
    ∀ l, wsThenWord l = true → wsThenWord (l ++ w) = true
  | [] => by intro h; simp [wsThenWord] at h
  | [c] => by intro h; simp [wsThenWord] at h
  | c1 :: c2 :: rest => by
    intro h
    simp only [wsThenWord, Bool.and_eq_true, Bool.or_eq_true, List.cons_append] at h ⊢
    refine ⟨h.1, ?_⟩
    rcases h.2 with h2 | h2
    · exact Or.inl h2
    · exact Or.inr (wsThenWord_append w (c2 :: rest) h2)

theorem digitsThenWsWord_append (w : List Char) :
    ∀ l, digitsThenWsWord l = true → digitsThenWsWord (l ++ w) = true
  | [] => by intro h; simp [digitsThenWsWord] at h
  | c :: rest => by
    intro h
    simp only [digitsThenWsWord, Bool.and_eq_true, Bool.or_eq_true,
      List.cons_append] at h ⊢
    refine ⟨h.1, ?_⟩
    rcases h.2 with h2 | h2
    · exact Or.inl (wsThenWord_append w rest h2)
    · exact Or.inr (digitsThenWsWord_append w rest h2)

theorem scanAny_append {M : List Char → Bool} (w : List Char)
    (hM : ∀ l, M l = true → M (l ++ w) = true) :
    ∀ l, scanAny M l = true → scanAny M (l ++ w) = true
  | [] => by intro h; simp [scanAny] at h
  | c :: rest => by
    intro h
    simp only [scanAny, Bool.or_eq_true, List.cons_append] at h ⊢
    rcases h with h | h
    · have := hM (c :: rest) h
      rw [List.cons_append] at this
      exact Or.inl this
    · exact Or.inr (scanAny_append w hM rest h)

theorem scanAny_prepend {M : List Char → Bool} (l : List Char)
    (h : scanAny M l = true) : ∀ w, scanAny M (w ++ l) = true
  | [] => by simpa using h
  | c :: w' => by
    simp only [List.cons_append, scanAny, Bool.or_eq_true]
    exact Or.inr (scanAny_prepend l h w')

theorem tokenHere_append_ws {w : List Char} (hw : ∀ c ∈ w, isWsChar c = true) :
    ∀ t l, tokenHere t l = true → tokenHere t (l ++ w) = true
  | [], [] => by
    intro _
    cases hwl : w with
    | nil => simp [tokenHere]
    | cons c w' =>
      have hword := ws_not_word (hw c (by rw [hwl]; simp))
      simp [tokenHere, hword]
  | [], c :: l' => by
    intro h
    simpa [tokenHere] using h
  | _ :: _, [] => by intro h; simp [tokenHere] at h
  | c :: t, d :: l => by
    intro h
    simp only [tokenHere, Bool.and_eq_true, List.cons_append] at h ⊢
    exact ⟨h.1, tokenHere_append_ws hw t l h.2⟩

theorem anyToken_append_ws {w : List Char} (hw : ∀ c ∈ w, isWsChar c = true)
    (ts : List (List Char)) :
    ∀ l, anyToken ts l = true → anyToken ts (l ++ w) = true := by
  intro l h
  simp only [anyToken, List.any_eq_true] at h ⊢
  obtain ⟨t, ht, htok⟩ := h
  exact ⟨t, ht, tokenHere_append_ws hw t l htok⟩

theorem zipHere_append_ws {w : List Char} (hw : ∀ c ∈ w, isWsChar c = true) :
    ∀ l, zipHere l = true → zipHere (l ++ w) = true := by
  intro l h
  rcases l with _ | ⟨a, _ | ⟨b, _ | ⟨c, _ | ⟨d, _ | ⟨e, rest⟩⟩⟩⟩⟩
  · simp [zipHere] at h
  · simp [zipHere] at h
  · simp [zipHere] at h
  · simp [zipHere] at h
  · simp [zipHere] at h
  · simp only [zipHere, Bool.and_eq_true, List.cons_append] at h ⊢
    obtain ⟨⟨⟨⟨⟨h1, h2⟩, h3⟩, h4⟩, h5⟩, h6⟩ := h
    refine ⟨⟨⟨⟨⟨h1, h2⟩, h3⟩, h4⟩, h5⟩, ?_⟩
    cases rest with
    | cons f r' => simpa using h6
    | nil =>
      simp only [List.nil_append]
      cases hwl : w with
      | nil => simp
      | cons f w' =>
        have hword := ws_not_word (hw f (by rw [hwl]; simp))
        simp [hword]

theorem bscan_append_ws {M : List Char → Bool} {w : List Char}
    (hw : ∀ c ∈ w, isWsChar c = true)
    (hM : ∀ l, M l = true → M (l ++ w) = true) :
    ∀ (b : Bool) (l : List Char), bscan M b l = true → bscan M b (l ++ w) = true
  | _, [] => by intro h; simp [bscan] at h
  | b, c :: rest => by
    intro h
    simp only [bscan, Bool.or_eq_true, Bool.and_eq_true, List.cons_append] at h ⊢
    rcases h with h | h
    · have := hM (c :: rest) h.2
      rw [List.cons_append] at this
      exact Or.inl ⟨h.1, this⟩
    · exact Or.inr (bscan_append_ws hw hM (isWordChar c) rest h)

theorem bscan_prepend_ws {M : List Char → Bool} :
    ∀ (w : List Char), (∀ c ∈ w, isWsChar c = true) →
    ∀ l, bscan M false l = true → bscan M false (w ++ l) = true
  | [], _, l, h => by simpa using h
  | c :: w', hw, l, h => by
    simp only [List.cons_append, bscan, Bool.or_eq_true]
    right
    have hc : isWordChar c = false := ws_not_word (hw c (by simp))
    rw [hc]
    exact bscan_prepend_ws w' (fun d hd => hw d (by simp [hd])) l h

/-- A match of `isAddressLike` on the trimmed string is also a match on
the original string. -/
theorem isAddressLikeL_of_trim (l : List Char)
    (h : isAddressLikeL (jsTrimL l) = true) : isAddressLikeL l = true := by
  obtain ⟨w1, w2, hw1, hw2, hdec⟩ := jsTrimL_decomp l
  simp only [isAddressLikeL, Bool.and_eq_true, Bool.or_eq_true,
    decide_eq_true_eq] at h ⊢
  obtain ⟨hlen, hpat⟩ := h
  constructor
  · rw [hdec]
    simp only [List.length_append]
    omega
  · rw [hdec, List.append_assoc]
    rcases hpat with (((h | h) | h) | h) | h
    · exact Or.inl (Or.inl (Or.inl (Or.inl (scanAny_prepend _
        (scanAny_append w2 (digitsThenWsWord_append w2) _ h) w1))))
    · exact Or.inl (Or.inl (Or.inl (Or.inr (bscan_prepend_ws w1 hw1 _
        (bscan_append_ws hw2 (anyToken_append_ws hw2 streetTokens) false _ h)))))
    · exact Or.inl (Or.inl (Or.inr (bscan_prepend_ws w1 hw1 _
        (bscan_append_ws hw2 (anyToken_append_ws hw2 boroughTokens) false _ h))))
    · exact Or.inl (Or.inr (bscan_prepend_ws w1 hw1 _
        (bscan_append_ws hw2 (anyToken_append_ws hw2 nyTokens) false _ h)))
    · exact Or.inr (bscan_prepend_ws w1 hw1 _
        (bscan_append_ws hw2 (zipHere_append_ws hw2) false _ h))

theorem hasAlphaL_of_trim (l : List Char) (h : hasAlphaL (jsTrimL l) = true) :
    hasAlphaL l = true := by
  obtain ⟨w1, w2, _, _, hdec⟩ := jsTrimL_decomp l
  rw [hdec]
  simp only [hasAlphaL, List.any_append, Bool.or_eq_true] at h ⊢
  exact Or.inl (Or.inr h)

/-- Everything the validator requires when it accepts a string. -/
theorem validator_true_elim (s : String) (h : isValidExtractedAddress s = true) :
    5 ≤ (jsTrimL s.toList).length ∧ (jsTrimL s.toList).length ≤ 200 ∧
    invalidPatternL (jsTrimL s.toList) = false ∧
    hasAlphaL (jsTrimL s.toList) = true ∧
    isAddressLikeL (jsTrimL s.toList) = true := by
  unfold isValidExtractedAddress at h
  simp only [String.toList] at h ⊢
  by_cases h1 : (jsTrimL s.data).length < 5
  · simp [h1] at h
  by_cases h2 : 200 < (jsTrimL s.data).length
  · simp [h1, h2] at h
  by_cases h3 : invalidPatternL (jsTrimL s.data) = true
  · simp [h1, h2, h3] at h
  by_cases h4 : hasAlphaL (jsTrimL s.data) = true
  · refine ⟨by omega, by omega, by simpa using h3, h4, ?_⟩
    simpa [h1, h2, h3, h4] using h
  · simp [h1, h2, h3, h4] at h

/-- C9 (amended): The validator returns false for every string whose
trimmed form matches one of the fixed placeholder patterns, for every
string whose *trimmed* form has length below 5 or above 200, for every
string with no alphabetic character, and for every string failing the
address-like predicate.  (Amendment: the code measures the length bounds
on the whitespace-trimmed string, so the raw length of the input is not
what is bounded — see the counterexample.) -/
theorem C9_validator_rejects (s : String)
    (h : invalidPatternL (jsTrimL s.toList) = true ∨
         (jsTrimL s.toList).length < 5 ∨ 200 < (jsTrimL s.toList).length ∨
         hasAlphaL s.toList = false ∨ isAddressLike s = false) :
    isValidExtractedAddress s = false := by
  by_contra hne
  have hv : isValidExtractedAddress s = true := by
    cases hb : isValidExtractedAddress s
    · exact absurd hb hne
    · rfl
  obtain ⟨hlen1, hlen2, hinv, halpha, haddr⟩ := validator_true_elim s hv
  rcases h with h | h | h | h | h
  · rw [h] at hinv; exact Bool.noConfusion hinv
  · omega
  · omega
  · rw [hasAlphaL_of_trim s.toList halpha] at h; exact Bool.noConfusion h
  · rw [show isAddressLike s = isAddressLikeL s.toList from rfl,
        isAddressLikeL_of_trim s.toList haddr] at h
    exact Bool.noConfusion h

/-- Closed witness for `C9_validator_rejects` at a concrete placeholder
string. -/
theorem C9_validator_rejects_witness :
    isValidExtractedAddress "Loading... please wait" = false :=
  C9_validator_rejects "Loading... please wait" (Or.inl (by decide))

set_option maxRecDepth 4000 in
/-- Counterexample to C9 as stated: a validator input of raw length
205 > 200 (a street address padded with 190 trailing spaces) is
*accepted*, because the length bounds are applied to the trimmed string.
-/
theorem C9_length_counterexample :
    200 < ("123 Main Street" ++ String.mk (List.replicate 190 ' ')).length ∧
    isValidExtractedAddress ("123 Main Street" ++ String.mk (List.replicate 190 ' '))
      = true := by
  constructor
  · decide
  · decide

/-! ## Page classification (content script, `isListingPage` /
`isSearchResultsPage`, and the `if / else if` dispatch in `init`) -/

/-- Unanchored search for `needle` followed immediately by at least one
digit (the `/\/for-rent\/\d+/` test). -/
def hasSubstrThenDigit (needle : List Char) : List Char → Bool
  | [] => false
  | c :: rest =>
    (startsWithL needle (c :: rest) &&
      (match (c :: rest).drop needle.length with
       | d :: _ => isDigitChar d
       | [] => false)) ||
    hasSubstrThenDigit needle rest

/-- Search for `needle` followed by one or more digits reaching the end
of the string (the end-anchored `/\/for-rent\/\d+$/` test). -/
def hasSuffixSlashDigits (needle : List Char) : List Char → Bool
  | [] => false
  | c :: rest =>
    (startsWithL needle (c :: rest) &&
      (let ds := (c :: rest).drop needle.length
       !ds.isEmpty && ds.all isDigitChar)) ||
    hasSuffixSlashDigits needle rest

/-- Function `isListingPage()` on the URL path. -/
def isListingPage (path : String) : Bool :=
  containsSubstrL (toL "/building/") path.data ||
  containsSubstrL (toL "/rental/") path.data ||
  containsSubstrL (toL "/sale/") path.data ||
  hasSubstrThenDigit (toL "/for-rent/") path.data ||
  hasSubstrThenDigit (toL "/for-sale/") path.data

/-- Function `isSearchResultsPage()` on the URL path. -/
def isSearchResultsPage (path : String) : Bool :=
  (startsWithL (toL "/for-rent/") path.data &&
    !hasSuffixSlashDigits (toL "/for-rent/") path.data) ||
  (startsWithL (toL "/for-sale/") path.data &&
    !hasSuffixSlashDigits (toL "/for-sale/") path.data)

inductive PageKind where
  | Listing
  | SearchResults
  | Inert
deriving Repr, DecidableEq

/-- The page classification the content script performs (in `init` and
the navigation handlers): `isListingPage` first, else
`isSearchResultsPage`, else nothing. -/
def classifyPage (path : String) : PageKind :=
  if isListingPage path then .Listing
  else if isSearchResultsPage path then .SearchResults
  else .Inert

/-- Split a character list on a separator (used by the spec-side
classifier below to talk about path segments). -/
def splitOnChar (sep : Char) : List Char → List (List Char)
  | [] => [[]]
  | c :: rest =>
    let r := splitOnChar sep rest
    if c = sep then [] :: r
    else
      match r with
      | s :: ss => (c :: s) :: ss
      | [] => [[c]]

def allDigitsNe (s : List Char) : Bool := !s.isEmpty && s.all isDigitChar

/-- Modelled from the spec: "contains a building/rental/sale path segment
or a purely numeric for-rent/for-sale id segment". -/
def specIsListingPath (path : String) : Bool :=
  let segs := splitOnChar '/' path.data
  segs.any (fun s => s = toL "building" || s = toL "rental" || s = toL "sale") ||
  (segs.zip segs.tail).any
    (fun p => (p.1 = toL "for-rent" || p.1 = toL "for-sale") && allDigitsNe p.2)

/-- Modelled from the spec: the path "is itself a numeric-id listing
path", i.e. exactly a for-rent/for-sale prefix followed by one purely
numeric id segment. -/
def specIsNumericIdPath (path : String) : Bool :=
  match splitOnChar '/' path.data with
  | [a, b, c] =>
    a.isEmpty && (b = toL "for-rent" || b = toL "for-sale") && allDigitsNe c
  | _ => false

/-- Modelled from the spec (claim C7's wording, for comparison with
`classifyPage`): Listing if the path contains a `building`/`rental`/`sale`
path segment or a *purely numeric* for-rent/for-sale id segment;
SearchResults if it starts with a for-rent or for-sale path prefix but is
not itself a numeric-id listing path; otherwise Inert. -/
def specClassifyPage (path : String) : PageKind :=
  if specIsListingPath path then .Listing
  else if (startsWithL (toL "/for-rent/") path.data ||
           startsWithL (toL "/for-sale/") path.data) &&
          !specIsNumericIdPath path then .SearchResults
  else .Inert

/-- Counterexample to C7 as stated: on the path `/for-rent/1a` the code
classifies Listing (the id regex `/\/for-rent\/\d+/` needs only one digit
after the slash, not a purely numeric segment), while the claim's rule
classifies SearchResults. -/
theorem C7_classification_counterexample :
    classifyPage "/for-rent/1a" = PageKind.Listing ∧
    specClassifyPage "/for-rent/1a" = PageKind.SearchResults := by
  constructor
  · decide
  · decide

/-- If the path ends in `needle` followed by digits, then in particular
`needle` is followed by at least one digit somewhere. -/
theorem hasSubstrThenDigit_of_suffix (needle : List Char) :
    ∀ l, hasSuffixSlashDigits needle l = true → hasSubstrThenDigit needle l = true
  | [] => by intro h; simp [hasSuffixSlashDigits] at h
  | c :: rest => by
    intro h
    simp only [hasSuffixSlashDigits, Bool.or_eq_true, Bool.and_eq_true] at h
    simp only [hasSubstrThenDigit, Bool.or_eq_true, Bool.and_eq_true]
    rcases h with ⟨h1, h2⟩ | h
    · left
      refine ⟨h1, ?_⟩
      rcases hds : (c :: rest).drop needle.length with _ | ⟨d, ds⟩
      · rw [hds] at h2
        simp at h2
      · rw [hds] at h2
        simp only [Bool.and_eq_true, List.all_cons] at h2
        have := h2.2
        simp only [Bool.and_eq_true] at this
        exact this.1
    · exact Or.inr (hasSubstrThenDigit_of_suffix needle rest h)

/-- C7 (amended): The code's page classification, characterised:
Listing iff the path contains `/building/`, `/rental/` or `/sale/` as a
substring, or contains `/for-rent/` or `/for-sale/` followed immediately
by a digit (the id segment need not be purely numeric); SearchResults iff
the path starts with `/for-rent/` or `/for-sale/` and is not a Listing
path; Inert otherwise.  Every path falls into exactly one class because
the classification is an ordered `if / else if / else`. -/
theorem C7_classification_amended (path : String) :
    (classifyPage path = PageKind.Listing ↔ isListingPage path = true) ∧
    (classifyPage path = PageKind.SearchResults ↔
      (isListingPage path = false ∧
       (startsWithL (toL "/for-rent/") path.data ||
        startsWithL (toL "/for-sale/") path.data) = true)) ∧
    (classifyPage path = PageKind.Inert ↔
      (isListingPage path = false ∧
       (startsWithL (toL "/for-rent/") path.data ||
        startsWithL (toL "/for-sale/") path.data) = false)) := by
  by_cases hl : isListingPage path = true
  · refine ⟨by simp [classifyPage, hl], ?_, ?_⟩
    · simp [classifyPage, hl]
    · simp [classifyPage, hl]
  · have hl' : isListingPage path = false := by
      cases hb : isListingPage path
      · rfl
      · exact absurd hb hl
    -- with Listing ruled out, isSearchResultsPage coincides with the prefix test
    have hsearch : isSearchResultsPage path =
        (startsWithL (toL "/for-rent/") path.data ||
         startsWithL (toL "/for-sale/") path.data) := by
      have hrent : hasSuffixSlashDigits (toL "/for-rent/") path.data = false := by
        cases hb : hasSuffixSlashDigits (toL "/for-rent/") path.data
        · rfl
        · exfalso
          apply hl
          simp only [isListingPage, Bool.or_eq_true]
          exact Or.inl (Or.inr (hasSubstrThenDigit_of_suffix _ _ hb))
      have hsale : hasSuffixSlashDigits (toL "/for-sale/") path.data = false := by
        cases hb : hasSuffixSlashDigits (toL "/for-sale/") path.data
        · rfl
        · exfalso
          apply hl
          simp only [isListingPage, Bool.or_eq_true]
          exact Or.inr (hasSubstrThenDigit_of_suffix _ _ hb)
      simp [isSearchResultsPage, hrent, hsale]
    by_cases hp : (startsWithL (toL "/for-rent/") path.data ||
        startsWithL (toL "/for-sale/") path.data) = true
    · refine ⟨?_, ?_, ?_⟩
      · simp [classifyPage, hl', hsearch, hp]
      · simp [classifyPage, hl', hsearch, hp]
      · simp [classifyPage, hl', hsearch, hp]
    · have hp' : (startsWithL (toL "/for-rent/") path.data ||
          startsWithL (toL "/for-sale/") path.data) = false := by
        cases hb : (startsWithL (toL "/for-rent/") path.data ||
            startsWithL (toL "/for-sale/") path.data)
        · rfl
        · exact absurd hb hp
      refine ⟨?_, ?_, ?_⟩
      · simp [classifyPage, hl', hsearch, hp']
      · simp [classifyPage, hl', hsearch, hp']
      · simp [classifyPage, hl', hsearch, hp']

/-- Closed witness for `C7_classification_amended` at concrete paths. -/
theorem C7_classification_amended_witness :
    classifyPage "/for-rent/nyc/all" = PageKind.SearchResults ∧
    classifyPage "/building/some-tower" = PageKind.Listing ∧
    classifyPage "/about" = PageKind.Inert :=
  ⟨(C7_classification_amended "/for-rent/nyc/all").2.1.mpr (by constructor <;> decide),
   (C7_classification_amended "/building/some-tower").1.mpr (by decide),
   (C7_classification_amended "/about").2.2.mpr (by constructor <;> decide)⟩

/-! ## Address cleaning and search-card extraction (content script,
`cleanAddress`, `extractNeighborhoodFromCard`, `extractAddressFromCard`)

DOM queries are abstracted: a `Card` carries the text the queries would
return (address link text, per-selector fallback texts, link texts, title
text, whole-card text).  Everything applied to those texts is translated
from the source. -/

/-- JS `text.split(sep)[0]`: the text before the first occurrence of the
separator. -/
def takeUntilSubstr (sep : List Char) : List Char → List Char
  | [] => []
  | c :: rest =>
    if startsWithL sep (c :: rest) then []
    else c :: takeUntilSubstr sep rest

/-- Length of a match of `\s*#\S+` starting exactly at the head (the
greedy whitespace run, the `#`, and a nonempty non-whitespace run). -/
def unitTokenLen (l : List Char) : Option Nat :=
  let ws := l.takeWhile isWsChar
  match l.drop ws.length with
  | '#' :: r2 =>
    let nw := r2.takeWhile (fun c => !isWsChar c)
    if nw.isEmpty then none else some (ws.length + 1 + nw.length)
  | _ => none

/-- JS `text.replace(/\s*#\S+/g, '')`, fuelled scan (every match consumes at
least one character, so fuel `l.length` always suffices). -/
def stripUnitTokensF : Nat → List Char → List Char
  | 0, _ => []
  | _, [] => []
  | fuel + 1, c :: rest =>
    match unitTokenLen (c :: rest) with
    | some n => stripUnitTokensF fuel ((c :: rest).drop n)
    | none => c :: stripUnitTokensF fuel rest

def stripUnitTokens (l : List Char) : List Char := stripUnitTokensF l.length l

/-- JS `text.replace(/\s+/g, ' ')`: collapse each whitespace run to one
space. -/
def collapseWs : List Char → List Char
  | [] => []
  | [c] => if isWsChar c then [' '] else [c]
  | c :: d :: rest =>
    if isWsChar c then
      if isWsChar d then collapseWs (d :: rest)
      else ' ' :: collapseWs (d :: rest)
    else c :: collapseWs (d :: rest)

/-- Function `cleanAddress(text)` from the content script: drop everything from a
`|`, a ` - ` or a ` for ` separator on, strip `\s*#\S+` unit tokens,
collapse whitespace, trim. -/
def cleanAddressL (l : List Char) : List Char :=
  jsTrimL (collapseWs (stripUnitTokens
    (takeUntilSubstr (toL " for ")
      (takeUntilSubstr (toL " - ")
        (takeUntilSubstr (toL "|") l)))))

def cleanAddress (s : String) : String := String.mk (cleanAddressL s.data)

def lowerS (s : String) : String := String.mk (lowerL s.data)

/-- Match of `\s+(.+)$` against `rest` (greedy `\s+`, a nonempty
non-newline capture reaching the end of the input); returns the capture.
When the remainder after the whitespace run is empty, the engine gives
one whitespace character back to the capture (possible only if the run
has at least two characters). -/
def wsCapture (rest : List Char) : Option (List Char) :=
  match rest with
  | [] => none
  | c :: _ =>
    if !isWsChar c then none
    else
      let m := rest.takeWhile isWsChar
      let r := rest.drop m.length
      match r with
      | [] =>
        match m.reverse with
        | a :: _ :: _ => if a = '\n' || a = '\r' then none else some [a]
        | _ => none
      | _ :: _ =>
        if r.all (fun c => !(c = '\n' || c = '\r')) then some r else none

/-- Leftmost match of `/\bin\s+(.+)$/i` (the Bool argument tracks whether
the previous character is a word character, for the `\b`); returns the
capture. -/
def titleInMatch : Bool → List Char → Option (List Char)
  | _, [] => none
  | prevW, c :: rest =>
    if !prevW && startsWithCI (toL "in") (c :: rest) then
      match wsCapture ((c :: rest).drop 2) with
      | some cap => some cap
      | none => titleInMatch (isWordChar c) rest
    else titleInMatch (isWordChar c) rest

/-- The lookahead `(?=\s*\$|\s*\d|$)` of the fallback neighborhood
patterns. -/
def lookaheadOk (l : List Char) : Bool :=
  l.isEmpty ||
  (match l.dropWhile isWsChar with
   | c :: _ => c = '$' || isDigitChar c
   | [] => false)

/-- The lazy capture `([^$\d]+?)` growing until the lookahead holds. -/
def lazyCapGo (acc : List Char) : List Char → Option (List Char)
  | [] => none
  | c :: rest =>
    if c = '$' || isDigitChar c then none
    else
      if lookaheadOk rest then some (acc ++ [c])
      else lazyCapGo (acc ++ [c]) rest

/-- Match of `\s+([^$\d]+?)(?=\s*\$|\s*\d|$)` at the start of `rest`;
returns the capture.  When the remainder after the whitespace run is
empty or starts with `$`/a digit, the engine backtracks one whitespace
character out of `\s+` into the capture. -/
def wsLazyLookahead (rest : List Char) : Option (List Char) :=
  match rest with
  | [] => none
  | c :: _ =>
    if !isWsChar c then none
    else
      let m := rest.takeWhile isWsChar
      let r := rest.drop m.length
      match r with
      | [] =>
        match m.reverse with
        | a :: _ :: _ => some [a]
        | _ => none
      | d :: _ =>
        if d = '$' || isDigitChar d then
          match m.reverse with
          | a :: _ :: _ => some [a]
          | _ => none
        else lazyCapGo [] r

/-- Leftmost match of one of the literal alternatives (in alternation
order) followed by `\s+([^$\d]+?)(?=\s*\$|\s*\d|$)`; returns the
capture. -/
def litThenCapture (alts : List (List Char)) : List Char → Option (List Char)
  | [] => none
  | c :: rest =>
    match alts.filterMap
        (fun a =>
          if startsWithCI a (c :: rest) then wsLazyLookahead ((c :: rest).drop a.length)
          else none) with
    | cap :: _ => some cap
    | [] => litThenCapture alts rest

/-- The five fallback neighborhood patterns of
`extractNeighborhoodFromCard`, each expanded into its literal
alternatives in the order the regex engine tries them. -/
def fallbackNeighborhood (allText : List Char) : Option (List Char) :=
  match litThenCapture [toL "rental unit in"] allText with
  | some cap => some cap
  | none =>
  match litThenCapture [toL "condominium in", toL "condo in"] allText with
  | some cap => some cap
  | none =>
  match litThenCapture [toL "co-op in", toL "coop in"] allText with
  | some cap => some cap
  | none =>
  match litThenCapture
      ([toL "single-family home in", toL "single-family in",
        toL "singlefamily home in", toL "singlefamily in",
        toL "two-family home in", toL "two-family in",
        toL "twofamily home in", toL "twofamily in",
        toL "multi-family home in", toL "multi-family in",
        toL "multifamily home in", toL "multifamily in"]) allText with
  | some cap => some cap
  | none => litThenCapture [toL "townhouse in"] allText

/-- NJ main cities (used directly as "city, NJ"). -/
def NJ_CITIES : List String :=
  ["bayonne", "cliffside park", "east newark", "edgewater", "fort lee",
   "guttenberg", "harrison", "hoboken", "jersey city", "kearny",
   "north bergen", "secaucus", "union city", "weehawken", "west new york"]

/-- Jersey City sub-neighborhoods (mapped to "Jersey City, NJ"). -/
def JERSEY_CITY_NEIGHBORHOODS : List String :=
  ["bergen/lafayette", "historic downtown", "journal square",
   "mcginley square", "newport", "the heights", "waterfront",
   "paulus hook", "west side"]

/-- A search-results card with its DOM queries abstracted into the text
they return:
* `addressActionLinkText`: the text of the
  `a[class*="ListingDescription-module__addressTextAction"]` link, if any;
* `addrSelTexts`: the text found for each of the three fallback address
  selectors, in order;
* `linkTexts`: the text of each `<a>` of the card, in document order;
* `titleText`: the text of the `ListingDescription-module__title`
  element, if any;
* `allText`: `card.textContent`. -/
structure Card where
  addressActionLinkText : Option String
  addrSelTexts : List (Option String)
  linkTexts : List String
  titleText : Option String
  allText : String
deriving Repr, DecidableEq

/-- Function `extractNeighborhoodFromCard(card)`: the `\bin\s+(.+)$/i` match on the
trimmed title text, else the five fallback patterns on the card text;
captures are trimmed. -/
def extractNeighborhoodFromCard (card : Card) : Option String :=
  let fromTitle :=
    match card.titleText with
    | some title =>
      match titleInMatch false (jsTrimL title.data) with
      | some cap => some (String.mk (jsTrimL cap))
      | none => none
    | none => none
  match fromTitle with
  | some n => some n
  | none =>
    match fallbackNeighborhood card.allText.data with
    | some cap => some (String.mk (jsTrimL cap))
    | none => none

/-- Strategy 2 of `extractAddressFromCard`: first selector hit whose
trimmed text is nonempty, address-like and shorter than 100 characters;
that hit is cleaned. -/
def strat2 : List (Option String) → Option String
  | [] => none
  | none :: rest => strat2 rest
  | some raw :: rest =>
    let text := String.mk (jsTrimL raw.data)
    if text = "" then strat2 rest
    else if isAddressLike text && text.length < 100 then some (cleanAddress text)
    else strat2 rest

/-- Strategy 3 of `extractAddressFromCard`: first link whose trimmed text
is address-like and shorter than 100 characters (not cleaned here). -/
def strat3 : List String → Option String
  | [] => none
  | raw :: rest =>
    let text := String.mk (jsTrimL raw.data)
    if isAddressLike text && text.length < 100 then some text
    else strat3 rest

/-- Function `extractAddressFromCard(card)` from the content script. -/
def extractAddressFromCard (card : Card) : Option String :=
  let street1 : Option String :=
    match card.addressActionLinkText with
    | some raw =>
      let text := String.mk (jsTrimL raw.data)
      if text ≠ "" then some text else none
    | none => none
  let street2 : Option String :=
    match street1 with
    | some s1 => some s1
    | none => strat2 card.addrSelTexts
  let street3 : Option String :=
    match street2 with
    | some s2 => some s2
    | none => strat3 card.linkTexts
  match street3 with
  | none => none
  | some st0 =>
    let st := cleanAddress st0
    if !isValidExtractedAddress st then none
    else
      match extractNeighborhoodFromCard card with
      | some nb =>
        if nb ≠ "" then
          if NJ_CITIES.contains (lowerS nb) then
            some (st ++ ", " ++ nb ++ ", NJ")
          else if JERSEY_CITY_NEIGHBORHOODS.contains (lowerS nb) then
            some (st ++ ", Jersey City, NJ")
          else some (st ++ ", New York, NY")
        else some (st ++ ", New York, NY")
      | none => some (st ++ ", New York, NY")

/-- C8: A card whose address link text is "150 East 44th Street #48F"
and whose title text is "RENTAL UNIT IN MIDTOWN" extracts to
"150 East 44th Street, New York, NY": the `#48F` unit token is stripped
by `cleanAddress`, the neighborhood "MIDTOWN" is captured from the title,
and since "midtown" is neither an NJ city nor a Jersey City
sub-neighborhood, the locality defaults to "New York, NY". -/
theorem C8_card_extraction (card : Card)
    (h1 : card.addressActionLinkText = some "150 East 44th Street #48F")
    (h2 : card.titleText = some "RENTAL UNIT IN MIDTOWN") :
    extractAddressFromCard card = some "150 East 44th Street, New York, NY" := by
  obtain ⟨a, sel, links, t, all⟩ := card
  subst h1
  subst h2
  rfl

/-- Closed witness for `C8_card_extraction` at a fully concrete card. -/
theorem C8_card_extraction_witness :
    extractAddressFromCard
      ⟨some "150 East 44th Street #48F", [], [], some "RENTAL UNIT IN MIDTOWN", ""⟩
      = some "150 East 44th Street, New York, NY" :=
  C8_card_extraction _ rfl rfl

/-! ## The retry loop (content script, `getCommuteTimeForAddress`)

Each `chrome.runtime.sendMessage` round trip is abstracted as an oracle
giving the outcome of each attempt: the call threw, resolved to a falsy
response, or resolved to a response with an `error` field and/or a
`morning.text` field. -/

/-- Outcome of one service-worker round trip. -/
inductive SWAttempt where
  | threw
  | noResponse
  | responded (error : Option String) (morningText : Option String)
deriving Repr, DecidableEq

/-- Per-card result of the pipeline: `{time, address}` or
`{error, address}`. -/
inductive CResult where
  | ok (time : String) (address : String)
  | err (msg : String) (address : String)
deriving Repr, DecidableEq

/-- JS `x || d` on an optional string (absent and `""` are falsy). -/
def jsOrElse (o : Option String) (d : String) : String :=
  match o with
  | some s => if s = "" then d else s
  | none => d

/-- Truthiness of `response.error`. -/
def errTruthy (o : Option String) : Bool :=
  match o with
  | some s => !(s = "")
  | none => false

def errMsg (o : Option String) : String := o.getD ""

/-- The permanent-error substrings of `getCommuteTimeForAddress`. -/
def permanentErrors : List String :=
  ["not found", "invalid", "No transit route", "wrong location",
   "not in NYC", "No path", "Please set"]

def isPermanentError (msg : String) : Bool :=
  permanentErrors.any (fun e => containsSubstrS msg e)

/-- What the loop records in `lastError` for a failed attempt (`'API
error'` for a throw, the literal no-response message, the response's
error text). -/
def observedError : SWAttempt → Option String
  | .threw => some "API error"
  | .noResponse => some "No response from service worker"
  | .responded e _ => some (errMsg e)

/-- An attempt outcome the loop retries after. -/
def transientStep (a : SWAttempt) : Bool :=
  match a with
  | .threw => true
  | .noResponse => true
  | .responded e _ => errTruthy e && !isPermanentError (errMsg e)

/-- Result of the whole loop, together with the number of attempts made
and the list of backoff delays slept (in ms, in order). -/
structure RetryTrace where
  result : CResult
  attemptsMade : Nat
  delays : List Nat
deriving Repr, DecidableEq

/-- The `for (let attempt = 0; attempt <= maxRetries; attempt++)` body of
`getCommuteTimeForAddress`, with the remaining budget
(`maxRetries + 1 - attempt`) as the recursion fuel. -/
def retryGo (oracle : Nat → SWAttempt) (address : String) :
    Nat → Option String → List Nat → Nat → RetryTrace
  | attempt, lastError, delays, 0 =>
    ⟨.err (jsOrElse lastError "Failed after retries") address, attempt, delays⟩
  | attempt, _lastError, delays, budget + 1 =>
    let delays1 := delays ++ (if 0 < attempt then [500 * attempt] else [])
    match oracle attempt with
    | .threw => retryGo oracle address (attempt + 1) (some "API error") delays1 budget
    | .noResponse =>
      retryGo oracle address (attempt + 1)
        (some "No response from service worker") delays1 budget
    | .responded e morning =>
      if errTruthy e then
        if isPermanentError (errMsg e) then ⟨.err (errMsg e) address, attempt + 1, delays1⟩
        else retryGo oracle address (attempt + 1) (some (errMsg e)) delays1 budget
      else ⟨.ok (jsOrElse morning "N/A") address, attempt + 1, delays1⟩

/-- Function `getCommuteTimeForAddress(address, maxRetries)`. -/
def getCommuteTimeForAddress (oracle : Nat → SWAttempt) (address : String)
    (maxRetries : Nat) : RetryTrace :=
  retryGo oracle address 0 none [] (maxRetries + 1)

/-- The expected backoff delays for attempts `att, att+1, ..., att+n-1`
(500ms times the attempt index; none before attempt 0). -/
def delaysFrom : Nat → Nat → List Nat
  | _, 0 => []
  | att, n + 1 => (if 0 < att then [500 * att] else []) ++ delaysFrom (att + 1) n

/-- One transient step unfolds `retryGo` by one attempt. -/
theorem retryGo_transient (oracle : Nat → SWAttempt) (address : String)
    (attempt : Nat) (lastError : Option String) (delays : List Nat) (budget : Nat)
    (h : transientStep (oracle attempt) = true) :
    retryGo oracle address attempt lastError delays (budget + 1) =
      retryGo oracle address (attempt + 1) (observedError (oracle attempt))
        (delays ++ (if 0 < attempt then [500 * attempt] else [])) budget := by
  cases ho : oracle attempt with
  | threw => simp [retryGo, ho, observedError]
  | noResponse => simp [retryGo, ho, observedError]
  | responded e morning =>
    rw [ho] at h
    simp only [transientStep, Bool.and_eq_true, Bool.not_eq_true] at h
    have hp : isPermanentError (e.getD "") = false := by
      simpa [errMsg] using h.2
    simp [retryGo, ho, h.1, hp, observedError, errMsg]

/-- The statement of the `retryGo` bookkeeping invariant, for a given
budget: the attempt counter only grows, by at most the budget, and the
slept delays are exactly the backoffs of the attempts made. -/
def BoundsStmt (oracle : Nat → SWAttempt) (address : String) (budget : Nat) : Prop :=
  ∀ (attempt : Nat) (lastError : Option String) (delays : List Nat),
    attempt ≤ (retryGo oracle address attempt lastError delays budget).attemptsMade ∧
    (retryGo oracle address attempt lastError delays budget).attemptsMade ≤
      attempt + budget ∧
    (retryGo oracle address attempt lastError delays budget).delays =
      delays ++ delaysFrom attempt
        ((retryGo oracle address attempt lastError delays budget).attemptsMade - attempt)

theorem bounds_term (attempt : Nat) (delays : List Nat) (budget : Nat) (r : CResult) :
    attempt ≤ (⟨r, attempt + 1,
        delays ++ (if 0 < attempt then [500 * attempt] else [])⟩ : RetryTrace).attemptsMade ∧
    (⟨r, attempt + 1,
        delays ++ (if 0 < attempt then [500 * attempt] else [])⟩ : RetryTrace).attemptsMade ≤
      attempt + (budget + 1) ∧
    (⟨r, attempt + 1,
        delays ++ (if 0 < attempt then [500 * attempt] else [])⟩ : RetryTrace).delays =
      delays ++ delaysFrom attempt
        ((⟨r, attempt + 1,
          delays ++ (if 0 < attempt then [500 * attempt] else [])⟩ : RetryTrace).attemptsMade
          - attempt) := by
  refine ⟨by show attempt ≤ attempt + 1; omega,
          by show attempt + 1 ≤ attempt + (budget + 1); omega, ?_⟩
  simp only [Nat.add_sub_cancel_left]
  show _ = delays ++ delaysFrom attempt 1
  simp [delaysFrom]

theorem bounds_step (oracle : Nat → SWAttempt) (address : String)
    {budget attempt : Nat} {delays : List Nat} (le2 : Option String)
    (ih : BoundsStmt oracle address budget) :
    attempt ≤ (retryGo oracle address (attempt + 1) le2
        (delays ++ (if 0 < attempt then [500 * attempt] else [])) budget).attemptsMade ∧
    (retryGo oracle address (attempt + 1) le2
        (delays ++ (if 0 < attempt then [500 * attempt] else [])) budget).attemptsMade ≤
      attempt + (budget + 1) ∧
    (retryGo oracle address (attempt + 1) le2
        (delays ++ (if 0 < attempt then [500 * attempt] else [])) budget).delays =
      delays ++ delaysFrom attempt
        ((retryGo oracle address (attempt + 1) le2
          (delays ++ (if 0 < attempt then [500 * attempt] else [])) budget).attemptsMade
          - attempt) := by
  obtain ⟨ih1, ih2, ih3⟩ :=
    ih (attempt + 1) le2 (delays ++ (if 0 < attempt then [500 * attempt] else []))
  refine ⟨by omega, by omega, ?_⟩
  rw [ih3, List.append_assoc]
  congr 1
  rcases Nat.exists_eq_add_of_le ih1 with ⟨n, hn⟩
  rw [hn]
  have h1 : attempt + 1 + n - attempt = n + 1 := by omega
  have h2 : attempt + 1 + n - (attempt + 1) = n := by omega
  rw [h1, h2]
  rfl

theorem retryGo_bounds (oracle : Nat → SWAttempt) (address : String) :
    ∀ budget, BoundsStmt oracle address budget := by
  intro budget
  induction budget with
  | zero =>
    intro attempt lastError delays
    simp [retryGo, delaysFrom]
  | succ b ih =>
    intro attempt lastError delays
    rcases ho : oracle attempt with _ | _ | ⟨e, morning⟩
    · have hred : retryGo oracle address attempt lastError delays (b + 1) =
          retryGo oracle address (attempt + 1) (some "API error")
            (delays ++ (if 0 < attempt then [500 * attempt] else [])) b := by
        simp [retryGo, ho]
      rw [hred]
      exact bounds_step oracle address _ ih
    · have hred : retryGo oracle address attempt lastError delays (b + 1) =
          retryGo oracle address (attempt + 1) (some "No response from service worker")
            (delays ++ (if 0 < attempt then [500 * attempt] else [])) b := by
        simp [retryGo, ho]
      rw [hred]
      exact bounds_step oracle address _ ih
    · by_cases he : errTruthy e = true
      · by_cases hperm : isPermanentError (errMsg e) = true
        · have hred : retryGo oracle address attempt lastError delays (b + 1) =
              ⟨.err (errMsg e) address, attempt + 1,
                delays ++ (if 0 < attempt then [500 * attempt] else [])⟩ := by
            simp [retryGo, ho, he, hperm]
          rw [hred]
          exact bounds_term attempt delays b _
        · have hred : retryGo oracle address attempt lastError delays (b + 1) =
              retryGo oracle address (attempt + 1) (some (errMsg e))
                (delays ++ (if 0 < attempt then [500 * attempt] else [])) b := by
            simp [retryGo, ho, he, hperm]
          rw [hred]
          exact bounds_step oracle address _ ih
      · have he' : errTruthy e = false := by
          cases hb : errTruthy e
          · rfl
          · exact absurd hb he
        have hred : retryGo oracle address attempt lastError delays (b + 1) =
            ⟨.ok (jsOrElse morning "N/A") address, attempt + 1,
              delays ++ (if 0 < attempt then [500 * attempt] else [])⟩ := by
          simp [retryGo, ho, he']
        rw [hred]
        exact bounds_term attempt delays b _

/-- C4: Retry policy of `getCommuteTimeForAddress` with the default
`maxRetries = 2`: at most 3 attempts in total (2 retries after the first
attempt); the backoffs slept are exactly `delaysFrom 0 n` for the `n`
attempts made — nothing before attempt 1, 500ms before attempt 2, 1000ms
before attempt 3; an error response whose text contains a permanent-error
substring (such as "No transit route") is returned immediately, ending
the loop at that attempt; and when all three attempts fail transiently
(no response, a thrown call, or other error text), the loop ends after 3
attempts returning the error observed at the last attempt. -/
theorem C4_retry_policy (oracle : Nat → SWAttempt) (address : String) :
    (getCommuteTimeForAddress oracle address 2).attemptsMade ≤ 3 ∧
    (getCommuteTimeForAddress oracle address 2).delays =
      delaysFrom 0 (getCommuteTimeForAddress oracle address 2).attemptsMade ∧
    (delaysFrom 0 1 = [] ∧ delaysFrom 0 2 = [500] ∧ delaysFrom 0 3 = [500, 1000]) ∧
    (∀ (k : Nat) (msg : String) (m : Option String), k ≤ 2 →
      oracle k = SWAttempt.responded (some msg) m → msg ≠ "" →
      isPermanentError msg = true →
      (∀ j, j < k → transientStep (oracle j) = true) →
      getCommuteTimeForAddress oracle address 2 =
        ⟨CResult.err msg address, k + 1, delaysFrom 0 (k + 1)⟩) ∧
    ((∀ j, j < 3 → transientStep (oracle j) = true) →
      getCommuteTimeForAddress oracle address 2 =
        ⟨CResult.err (jsOrElse (observedError (oracle 2)) "Failed after retries") address,
         3, [500, 1000]⟩) := by
  refine ⟨?_, ?_, ⟨rfl, rfl, rfl⟩, ?_, ?_⟩
  · exact (retryGo_bounds oracle address 3 0 none []).2.1
  · exact (retryGo_bounds oracle address 3 0 none []).2.2
  · intro k msg m hk ho hmsg hperm hprev
    interval_cases k
    · show retryGo oracle address 0 none [] 3 = _
      simp [retryGo, ho, errTruthy, hmsg, errMsg, hperm, delaysFrom]
    · have h0 : retryGo oracle address 0 none [] 3 =
          retryGo oracle address 1 (observedError (oracle 0)) [] 2 :=
        retryGo_transient oracle address 0 none [] 2 (hprev 0 (by omega))
      show retryGo oracle address 0 none [] 3 = _
      rw [h0]
      simp [retryGo, ho, errTruthy, hmsg, errMsg, hperm, delaysFrom]
    · have h0 : retryGo oracle address 0 none [] 3 =
          retryGo oracle address 1 (observedError (oracle 0)) [] 2 :=
        retryGo_transient oracle address 0 none [] 2 (hprev 0 (by omega))
      have h1 : retryGo oracle address 1 (observedError (oracle 0)) [] 2 =
          retryGo oracle address 2 (observedError (oracle 1)) [500] 1 :=
        retryGo_transient oracle address 1 (observedError (oracle 0)) [] 1
          (hprev 1 (by omega))
      show retryGo oracle address 0 none [] 3 = _
      rw [h0, h1]
      simp [retryGo, ho, errTruthy, hmsg, errMsg, hperm, delaysFrom]
  · intro hall
    have h0 : retryGo oracle address 0 none [] 3 =
        retryGo oracle address 1 (observedError (oracle 0)) [] 2 :=
      retryGo_transient oracle address 0 none [] 2 (hall 0 (by omega))
    have h1 : retryGo oracle address 1 (observedError (oracle 0)) [] 2 =
        retryGo oracle address 2 (observedError (oracle 1)) [500] 1 :=
      retryGo_transient oracle address 1 (observedError (oracle 0)) [] 1
        (hall 1 (by omega))
    have h2 : retryGo oracle address 2 (observedError (oracle 1)) [500] 1 =
        retryGo oracle address 3 (observedError (oracle 2)) [500, 1000] 0 :=
      retryGo_transient oracle address 2 (observedError (oracle 1)) [500] 0
        (hall 2 (by omega))
    show retryGo oracle address 0 none [] 3 = _
    rw [h0, h1, h2]
    rfl

/-- Closed witness for `C4_retry_policy`: a service worker that never
responds makes the loop run 3 attempts with backoffs 500 and 1000 and
return the last observed error. -/
theorem C4_retry_policy_witness :
    getCommuteTimeForAddress (fun _ => SWAttempt.noResponse) "1 Main St, New York, NY" 2 =
      ⟨CResult.err "No response from service worker" "1 Main St, New York, NY",
       3, [500, 1000]⟩ :=
  (C4_retry_policy (fun _ => SWAttempt.noResponse) "1 Main St, New York, NY").2.2.2.2
    (by intro j hj; decide)

/-! ## Routing-response handling (service worker, `fetchTransitRoute` and
`formatDuration`)

The `fetch` round trip is abstracted into a `RoutingResponse` record:
whether the call threw, the HTTP status, whether the body parsed as JSON,
and the parsed body.  `time` is in seconds; a missing or zero `time` is
falsy in `!properties.time`.  (Routing durations are non-negative, so
`time` is modelled as a `Nat`.) -/

structure RouteProps where
  time : Option Nat
deriving Repr, DecidableEq

structure RouteFeature where
  properties : Option RouteProps
deriving Repr, DecidableEq

structure RoutingErr where
  message : Option String
deriving Repr, DecidableEq

structure RoutingData where
  error : Option RoutingErr
  statusCode : Option Nat
  message : Option String
  features : Option (List RouteFeature)
deriving Repr, DecidableEq

structure RoutingResponse where
  fetchThrew : Bool
  ok : Bool
  status : Nat
  statusText : String
  jsonOk : Bool
  data : RoutingData
deriving Repr, DecidableEq

structure RouteResult where
  text : String
  minutes : Option Nat
deriving Repr, DecidableEq

/-- Function `formatDuration(minutes)` from the service worker. -/
def formatDuration (minutes : Nat) : String :=
  if minutes < 60 then toString minutes ++ " min"
  else
    let hours := minutes / 60
    let mins := minutes % 60
    if mins = 0 then toString hours ++ " hr"
    else toString hours ++ " hr " ++ toString mins ++ " min"

/-- JS `errorMsg?.includes(sub)` with optional chaining (`none` is falsy). -/
def strIncludesOpt (o : Option String) (sub : String) : Bool :=
  match o with
  | some s => containsSubstrS s sub
  | none => false

/-- JS `a || b` on two optional strings (absent and `""` are falsy). -/
def jsOrOpt (a b : Option String) : Option String :=
  match a with
  | some s => if s = "" then b else some s
  | none => b

/-- Function `fetchTransitRoute` from `src/background/service-worker.js`, as a
function of the abstracted response.  (When both `data.message` and
`data.error.message` are absent, the JS `errorMsg` falls back to the raw
`data.error` object, and `errorMsg?.includes` then throws a `TypeError`
which surfaces as a rejection; that branch is modelled by the final
`.error` fallback and is not touched by any claim.) -/
def fetchTransitRoute (resp : RoutingResponse) : Except String RouteResult :=
  if resp.fetchThrew then
    .error "Network error - please check your internet connection."
  else if !resp.jsonOk then
    if !resp.ok then
      .error ("Routing service error (" ++ toString resp.status ++ "). Please try again.")
    else .error "Invalid response from routing service."
  else if !resp.ok then
    if resp.status = 401 then
      .error "Invalid API key. Please check your key in the Pace popup."
    else if resp.status = 400 then
      .error "No transit route available for this address"
    else .error ("API error: " ++ toString resp.status ++ " " ++ resp.statusText)
  else if resp.data.error.isSome || resp.data.statusCode = some 400 then
    let errorMsg := jsOrOpt resp.data.message (resp.data.error.bind RoutingErr.message)
    if strIncludesOpt errorMsg "distance exceeds" ||
       strIncludesOpt errorMsg "max distance" then
      .error "Address geocoded to wrong location (not in NYC area)"
    else if strIncludesOpt errorMsg "No path" ||
            strIncludesOpt errorMsg "could not be found" then
      .error "No transit route available"
    else .error (jsOrElse errorMsg "Routing failed")
  else
    match resp.data.features with
    | none => .ok ⟨"No transit route", none⟩
    | some [] => .ok ⟨"No transit route", none⟩
    | some (route :: _) =>
      match route.properties with
      | none => .ok ⟨"No transit route", none⟩
      | some props =>
        match props.time with
        | none => .ok ⟨"No transit route", none⟩
        | some t =>
          if t = 0 then .ok ⟨"No transit route", none⟩
          else
            let totalMinutes := (t + 30) / 60
            .ok ⟨formatDuration totalMinutes, some totalMinutes⟩

/-- The first route feature lacks a (truthy) positive `time`, or there is
no feature at all. -/
def lacksRoute (d : RoutingData) : Prop :=
  d.features = none ∨ d.features = some [] ∨
  ∃ f rest, d.features = some (f :: rest) ∧
    (f.properties = none ∨
     ∃ p, f.properties = some p ∧ (p.time = none ∨ p.time = some 0))

/-- The badge state `injectCommuteBadge` selects for a card result. -/
inductive BadgeKind where
  | loadingBadge
  | errorBadge
  | successBadge
deriving Repr, DecidableEq

/-- A rendered badge payload: the loading state or a final result. -/
inductive RenderPayload where
  | loading (address : String)
  | result (r : CResult)
deriving Repr, DecidableEq

/-- The three-way state choice (`loading`, truthy
`error`, else success). -/
def badgeKind : RenderPayload → BadgeKind
  | .loading _ => .loadingBadge
  | .result (.err _ _) => .errorBadge
  | .result (.ok _ _) => .successBadge

/-- C10: An HTTP-successful, parseable routing response with no error
field and no 400 status code, whose feature list is empty/absent or whose
first feature lacks a positive time, makes `fetchTransitRoute` return the
*success* value `{text: "No transit route", minutes: null}` rather than
an error; the service worker passes it through as `morning`, so the
content script's retry loop treats it as a success (one attempt, result
`{time: "No transit route"}`), caches it, and the badge renders in the
success state, not the error state. -/
theorem C10_no_route_success (resp : RoutingResponse)
    (h1 : resp.fetchThrew = false) (h2 : resp.jsonOk = true)
    (h3 : resp.ok = true) (h4 : resp.data.error = none)
    (h5 : resp.data.statusCode ≠ some 400) (h6 : lacksRoute resp.data) :
    fetchTransitRoute resp = .ok ⟨"No transit route", none⟩ ∧
    (∀ (oracle : Nat → SWAttempt) (address : String),
      (∀ j, oracle j = SWAttempt.responded none (some "No transit route")) →
      getCommuteTimeForAddress oracle address 2 =
        ⟨CResult.ok "No transit route" address, 1, []⟩) ∧
    (∀ address, badgeKind (.result (CResult.ok "No transit route" address)) =
      BadgeKind.successBadge) ∧
    (∀ (c : LRUCache CResult) (address : String) (now : Nat), c.wf →
      lookupKey ((c.setOp address (CResult.ok "No transit route" address) now)).entries
          address = some ⟨CResult.ok "No transit route" address, now⟩) := by
  refine ⟨?_, ?_, fun _ => rfl, ?_⟩
  · have h5' : (resp.data.statusCode = some 400) = False := by
      simp [h5]
    unfold fetchTransitRoute
    rw [h1, h2, h3]
    simp only [Bool.not_true, Bool.false_eq_true, if_false, h4, Option.isSome_none,
      h5', Bool.or_eq_true, decide_eq_true_eq, or_false]
    rcases h6 with h | h | ⟨f, rest, hf, hp⟩
    · simp [h]
    · simp [h]
    · rw [hf]
      rcases hp with hp | ⟨p, hp, ht⟩
      · simp [hp]
      · rcases ht with ht | ht
        · simp [hp, ht]
        · simp [hp, ht]
  · intro oracle address hor
    show retryGo oracle address 0 none [] 3 = _
    simp [retryGo, hor 0, errTruthy, jsOrElse]
  · intro c address now hwf
    exact lookupKey_setOp c address _ now hwf

/-- Closed witness for `C10_no_route_success` at a concrete empty-features
response. -/
theorem C10_no_route_success_witness :
    fetchTransitRoute ⟨false, true, 200, "OK", true, ⟨none, none, none, some []⟩⟩ =
      Except.ok ⟨"No transit route", none⟩ ∧
    getCommuteTimeForAddress
        (fun _ => SWAttempt.responded none (some "No transit route")) "7 Hoyt St" 2 =
      ⟨CResult.ok "No transit route" "7 Hoyt St", 1, []⟩ := by
  have h := C10_no_route_success ⟨false, true, 200, "OK", true, ⟨none, none, none, some []⟩⟩
    rfl rfl rfl rfl (by decide) (Or.inr (Or.inl rfl))
  exact ⟨h.1, h.2.1 _ "7 Hoyt St" (fun j => rfl)⟩

/-! ## The search-results request scheduler (content script)

The module-level scheduler state (`requestQueue`, `activeRequests`,
`pendingRequests`, `commuteCache`) and the handlers that drive it
(`queueCardForProcessing`, `processQueue`, `processCardRequest`, the
navigation teardown `cleanupSearchResultsObservers`) are modelled as a
state machine.  Events are the suspension points of the event loop:

* `submit`: `queueCardForProcessing(card)` after a successful address
  extraction (loading badge, cache probe, enqueue + `processQueue`);
* `complete`: the resolution promise of an in-flight address settles
  (the initiator's continuation caches the result, deletes the pending
  entry and renders; each deduplicated waiter renders the same result;
  each settled `processCardRequest` then runs its `finally`:
  `activeRequests--; processQueue()`).  `getCommuteTimeForAddress` never
  rejects, and the `catch` branch of `processCardRequest` performs the
  same cache/pending/render updates with an error result, so one event
  covers success and failure (`CResult.ok` / `CResult.err`);
* `navigate`: the SPA URL-change / popstate handler
  (`cleanupSearchResultsObservers`: clears the queue and resets
  `activeRequests` to 0; pending requests and in-flight calls are *not*
  cancelled).

`activeRequests` is an `Int` because a stale completion after a teardown
decrements the reset counter below zero.  `epoch` counts navigations; a
render is stale when its card was submitted in an earlier epoch. -/

/-- A work item `{card, address}`; the card is an abstract id, tagged
with the navigation epoch in which it was submitted. -/
structure Item where
  cardId : Nat
  address : String
  epoch : Nat
deriving Repr, DecidableEq

/-- A call of `injectCommuteBadge`: which card, that card's submission
epoch, the payload, and the navigation epoch at render time. -/
structure RenderEvent where
  cardId : Nat
  cardEpoch : Nat
  payload : RenderPayload
  renderEpoch : Nat
deriving Repr, DecidableEq

def MAX_CONCURRENT_REQUESTS : Int := 3

structure SchedState where
  queue : List Item
  active : Int
  pending : List String
  inflight : List Item
  waiters : List Item
  cache : LRUCache CResult
  renders : List RenderEvent
  dispatched : List Item
  calls : Nat
  epoch : Nat
deriving Repr, DecidableEq

/-- A `List.erase`-style first-occurrence removal on the pending table. -/
def eraseFirstStr : List String → String → List String
  | [], _ => []
  | s :: rest, a => if s = a then rest else s :: eraseFirstStr rest a

/-- First-occurrence removal of an in-flight item by address. -/
def eraseFirstAddr : List Item → String → List Item
  | [], _ => []
  | it :: rest, a => if it.address = a then rest else it :: eraseFirstAddr rest a

/-- The synchronous prefix of `processCardRequest(item)` up to its first
`await`: a pending address makes the item await the existing promise (a
waiter); otherwise the item starts the resolution
(`getCommuteTimeForAddress`), records it in `pendingRequests`, and a new
network resolution call is outstanding. -/
def dispatchOne (s : SchedState) (it : Item) : SchedState :=
  if it.address ∈ s.pending then
    { s with waiters := s.waiters ++ [it], dispatched := s.dispatched ++ [it] }
  else
    { s with pending := s.pending ++ [it.address],
             inflight := s.inflight ++ [it],
             calls := s.calls + 1,
             dispatched := s.dispatched ++ [it] }

/-- The `while (requestQueue.length > 0 && activeRequests <
MAX_CONCURRENT_REQUESTS)` loop of `processQueue` over an explicit queue
(the state's queue field holds the undrained remainder). -/
def drainAux : List Item → SchedState → SchedState
  | [], s => s
  | it :: rest, s =>
    if s.active < MAX_CONCURRENT_REQUESTS then
      drainAux rest (dispatchOne { s with active := s.active + 1 } it)
    else { s with queue := it :: rest }

/-- Function `processQueue()`. -/
def drainQueue (s : SchedState) : SchedState := drainAux s.queue { s with queue := [] }

/-- Function `queueCardForProcessing(card)` after address extraction succeeded:
loading badge, cache probe (`has` then `get`, both with side effects),
and on a miss enqueue + `processQueue`. -/
def submitCard (s : SchedState) (cardId : Nat) (address : String) (now : Nat) :
    SchedState :=
  let s1 := { s with renders :=
    s.renders ++ [RenderEvent.mk cardId s.epoch (.loading address) s.epoch] }
  let hc := s1.cache.hasOp address now
  let s2 := { s1 with cache := hc.2 }
  if hc.1 then
    let gc := s2.cache.getOp address now
    let s3 := { s2 with cache := gc.2 }
    match gc.1 with
    | some r =>
      { s3 with renders :=
          s3.renders ++ [RenderEvent.mk cardId s3.epoch (.result r) s3.epoch] }
    | none => s3
  else
    drainQueue { s2 with queue := s2.queue ++ [⟨cardId, address, s2.epoch⟩] }

/-- One `finally` of a settled `processCardRequest`:
`activeRequests--; processQueue()`. -/
def decDrain (s : SchedState) : SchedState :=
  drainQueue { s with active := s.active - 1 }

def decDrainN : Nat → SchedState → SchedState
  | 0, s => s
  | n + 1, s => decDrainN n (decDrain s)

/-- The resolution for `address` settles with result `r`: the initiator's
continuation runs (`commuteCache.set`, `pendingRequests.delete`, badge),
each waiter for that address renders the same result, and every settled
item's `finally` releases its slot and re-drains the queue. -/
def completeCall (s : SchedState) (address : String) (r : CResult) (now : Nat) :
    SchedState :=
  match s.inflight.find? (fun it => it.address = address) with
  | none => s
  | some initiator =>
    let ws := s.waiters.filter (fun it => it.address = address)
    let s1 := { s with
      cache := s.cache.setOp address r now,
      pending := eraseFirstStr s.pending address,
      inflight := eraseFirstAddr s.inflight address,
      waiters := s.waiters.filter (fun it => !(it.address = address)),
      renders := s.renders ++
        (RenderEvent.mk initiator.cardId initiator.epoch (.result r) s.epoch ::
         ws.map (fun it => RenderEvent.mk it.cardId it.epoch (.result r) s.epoch)) }
    decDrainN (1 + ws.length) s1

/-- The SPA-navigation handler: `removeWidget()` and
`cleanupSearchResultsObservers()` (queue cleared, `activeRequests = 0`;
`pendingRequests` and in-flight calls untouched). -/
def navigateStep (s : SchedState) : SchedState :=
  { s with queue := [], active := 0, epoch := s.epoch + 1 }

inductive SchedEvent where
  | submit (cardId : Nat) (address : String) (now : Nat)
  | complete (address : String) (r : CResult) (now : Nat)
  | navigate
deriving Repr, DecidableEq

def schedStep (s : SchedState) : SchedEvent → SchedState
  | .submit c a now => submitCard s c a now
  | .complete a r now => completeCall s a r now
  | .navigate => navigateStep s

/-- The module-level initial state (`commuteCache = new LRUCache(100,
30*60*1000)`, everything else empty/zero). -/
def initState : SchedState :=
  ⟨[], 0, [], [], [], ⟨100, 30 * 60 * 1000, []⟩, [], [], 0, 0⟩

def runEvents (l : List SchedEvent) : SchedState := l.foldl schedStep initState

/-! ### Scheduler lemmas -/

theorem eraseFirst_map_addr (l : List Item) (a : String) :
    (eraseFirstAddr l a).map Item.address = eraseFirstStr (l.map Item.address) a := by
  induction l with
  | nil => rfl
  | cons it rest ih =>
    by_cases h : it.address = a
    · simp [eraseFirstAddr, eraseFirstStr, h]
    · simp [eraseFirstAddr, eraseFirstStr, h, ih]

theorem eraseFirstStr_sublist (l : List String) (a : String) :
    (eraseFirstStr l a).Sublist l := by
  induction l with
  | nil => simp [eraseFirstStr]
  | cons s rest ih =>
    by_cases h : s = a
    · simp [eraseFirstStr, h]
    · simp only [eraseFirstStr, h, if_false]
      exact List.Sublist.cons₂ s ih

theorem eraseFirstStr_not_mem (l : List String) (a : String) (h : l.Nodup) :
    a ∉ eraseFirstStr l a := by
  induction l with
  | nil => simp [eraseFirstStr]
  | cons s rest ih =>
    simp only [List.nodup_cons] at h
    by_cases hs : s = a
    · subst hs
      simpa [eraseFirstStr] using h.1
    · simp only [eraseFirstStr, hs, if_false, List.mem_cons]
      push_neg
      exact ⟨fun hh => hs hh.symm, ih h.2⟩

/-- Lemma: `dispatchOne` leaves the queue, renders, cache and epoch unchanged.
-/
theorem dispatchOne_fields (s : SchedState) (it : Item) :
    (dispatchOne s it).queue = s.queue ∧ (dispatchOne s it).renders = s.renders ∧
    (dispatchOne s it).cache = s.cache ∧ (dispatchOne s it).epoch = s.epoch ∧
    (dispatchOne s it).active = s.active := by
  unfold dispatchOne
  by_cases h : it.address ∈ s.pending
  · simp [h]
  · simp [h]

theorem drainAux_renders (q : List Item) :
    ∀ s : SchedState, (drainAux q s).renders = s.renders := by
  induction q with
  | nil => intro s; rfl
  | cons it rest ih =>
    intro s
    unfold drainAux
    by_cases h : s.active < MAX_CONCURRENT_REQUESTS
    · rw [if_pos h, ih]
      exact (dispatchOne_fields _ it).2.1
    · rw [if_neg h]

theorem drainQueue_renders (s : SchedState) : (drainQueue s).renders = s.renders :=
  drainAux_renders s.queue _

theorem drainAux_core (q : List Item) :
    ∀ s : SchedState, s.pending = s.inflight.map Item.address → s.pending.Nodup →
      (drainAux q s).pending = (drainAux q s).inflight.map Item.address ∧
      (drainAux q s).pending.Nodup := by
  induction q with
  | nil => intro s h1 h2; exact ⟨h1, h2⟩
  | cons it rest ih =>
    intro s h1 h2
    unfold drainAux
    by_cases h : s.active < MAX_CONCURRENT_REQUESTS
    · rw [if_pos h]
      unfold dispatchOne
      by_cases hmem : it.address ∈ s.pending
      · simp only [hmem, if_true]
        exact ih _ h1 h2
      · simp only [hmem, if_false]
        apply ih
        · simp [h1]
        · simp only [List.nodup_append, List.nodup_cons, List.nodup_nil]
          refine ⟨h2, by simp, ?_⟩
          intro x hx
          simp only [List.mem_singleton]
          intro hcontra
          subst hcontra
          exact hmem hx
    · rw [if_neg h]
      exact ⟨h1, h2⟩

theorem drainAux_queue_bound (q : List Item) :
    ∀ s : SchedState, s.queue = [] →
      (drainAux q s).queue ≠ [] → MAX_CONCURRENT_REQUESTS ≤ (drainAux q s).active := by
  induction q with
  | nil =>
    intro s hq hne
    exact absurd hq hne
  | cons it rest ih =>
    intro s hq hne
    unfold drainAux at hne ⊢
    by_cases h : s.active < MAX_CONCURRENT_REQUESTS
    · rw [if_pos h] at hne ⊢
      apply ih
      · rw [(dispatchOne_fields _ it).1]
        exact hq
      · exact hne
    · rw [if_neg h]
      show MAX_CONCURRENT_REQUESTS ≤ s.active
      omega

theorem drainQueue_core (s : SchedState) (h1 : s.pending = s.inflight.map Item.address)
    (h2 : s.pending.Nodup) :
    (drainQueue s).pending = (drainQueue s).inflight.map Item.address ∧
    (drainQueue s).pending.Nodup :=
  drainAux_core s.queue _ h1 h2

theorem drainQueue_queue_bound (s : SchedState) :
    (drainQueue s).queue ≠ [] → MAX_CONCURRENT_REQUESTS ≤ (drainQueue s).active :=
  drainAux_queue_bound s.queue _ rfl

/-- The scheduler's pending-table invariant: `pendingRequests` holds
exactly the addresses of the outstanding resolutions, at most once each
(this is the "an entry exists exactly while a resolution is outstanding"
part of C1); additionally a non-empty queue means all slots are taken. -/
def PendingInv (s : SchedState) : Prop :=
  s.pending = s.inflight.map Item.address ∧ s.pending.Nodup ∧
  (s.queue ≠ [] → MAX_CONCURRENT_REQUESTS ≤ s.active)

/-- Every branch of `submitCard` either leaves the scheduler fields
untouched (cache hit: only badge renders and cache-recency change) or is
a drain of the probed state with the new item appended to the queue. -/
theorem submitCard_cases (s : SchedState) (c : Nat) (a : String) (now : Nat) :
    (submitCard s c a now).queue = s.queue ∧
    (submitCard s c a now).active = s.active ∧
    (submitCard s c a now).pending = s.pending ∧
    (submitCard s c a now).inflight = s.inflight ∧
    (submitCard s c a now).waiters = s.waiters ∧
    (submitCard s c a now).calls = s.calls ∨
    (∃ s2 : SchedState,
      submitCard s c a now = drainQueue { s2 with queue := s2.queue ++ [⟨c, a, s2.epoch⟩] } ∧
      s2.queue = s.queue ∧ s2.active = s.active ∧ s2.pending = s.pending ∧
      s2.inflight = s.inflight ∧ s2.waiters = s.waiters ∧ s2.calls = s.calls ∧
      s2.epoch = s.epoch) := by
  simp only [submitCard]
  split
  · split
    · left
      simp
    · left
      simp
  · right
    refine ⟨{ s with
        cache := (s.cache.hasOp a now).2,
        renders := s.renders ++ [RenderEvent.mk c s.epoch (.loading a) s.epoch] },
      ?_, rfl, rfl, rfl, rfl, rfl, rfl, rfl⟩
    rfl

theorem decDrainN_core (n : Nat) :
    ∀ s : SchedState, s.pending = s.inflight.map Item.address → s.pending.Nodup →
      (decDrainN n s).pending = (decDrainN n s).inflight.map Item.address ∧
      (decDrainN n s).pending.Nodup := by
  induction n with
  | zero => intro s h1 h2; exact ⟨h1, h2⟩
  | succ m ih =>
    intro s h1 h2
    show (decDrainN m (decDrain s)).pending = _ ∧ _
    have hcore := drainQueue_core { s with active := s.active - 1 } h1 h2
    exact ih _ hcore.1 hcore.2

theorem decDrainN_queue_bound (n : Nat) (hn : 0 < n) :
    ∀ s : SchedState,
      (decDrainN n s).queue ≠ [] →
      MAX_CONCURRENT_REQUESTS ≤ (decDrainN n s).active := by
  induction n with
  | zero => omega
  | succ m ih =>
    intro s
    cases m with
    | zero =>
      show (decDrain s).queue ≠ [] → _
      exact drainQueue_queue_bound _
    | succ m' =>
      show (decDrainN (m' + 1) (decDrain s)).queue ≠ [] → _
      exact ih (by omega) _

theorem decDrainN_renders (n : Nat) :
    ∀ s : SchedState, (decDrainN n s).renders = s.renders := by
  induction n with
  | zero => intro s; rfl
  | succ m ih =>
    intro s
    show (decDrainN m (decDrain s)).renders = _
    rw [ih, decDrain, drainQueue_renders]

/-- Invariant `PendingInv` is preserved by every scheduler event. -/
theorem schedStep_preserves_inv (s : SchedState) (e : SchedEvent)
    (h : PendingInv s) : PendingInv (schedStep s e) := by
  obtain ⟨h1, h2, h3⟩ := h
  cases e with
  | submit c a now =>
    show PendingInv (submitCard s c a now)
    rcases submitCard_cases s c a now with
      ⟨hq, ha, hp, hi, _, _⟩ | ⟨s2, heq, hq, ha, hp, hi, _, _, _⟩
    · refine ⟨by rw [hp, hi, h1], by rw [hp]; exact h2, ?_⟩
      rw [hq, ha]
      exact h3
    · rw [heq]
      have hcore := drainQueue_core { s2 with queue := s2.queue ++ [⟨c, a, s2.epoch⟩] }
        (by simpa [hp, hi] using h1) (by simpa [hp] using h2)
      exact ⟨hcore.1, hcore.2, drainQueue_queue_bound _⟩
  | complete a r now =>
    show PendingInv (completeCall s a r now)
    unfold completeCall
    cases hfind : s.inflight.find? (fun it => it.address = a) with
    | none => exact ⟨h1, h2, h3⟩
    | some initiator =>
      simp only
      set ws := s.waiters.filter (fun it => it.address = a) with hws
      have hcore1 : (eraseFirstStr s.pending a) =
          (eraseFirstAddr s.inflight a).map Item.address := by
        rw [eraseFirst_map_addr, h1]
      have hcore2 : (eraseFirstStr s.pending a).Nodup :=
        (eraseFirstStr_sublist s.pending a).nodup h2
      refine ⟨?_, ?_, ?_⟩
      · exact (decDrainN_core (1 + ws.length) _ hcore1 hcore2).1
      · exact (decDrainN_core (1 + ws.length) _ hcore1 hcore2).2
      · exact decDrainN_queue_bound (1 + ws.length) (by omega) _
  | navigate =>
    exact ⟨h1, h2, by intro hq; exact absurd rfl hq⟩

theorem dispatchOne_pending_waiter (s : SchedState) (it : Item)
    (h : it.address ∈ s.pending) :
    (dispatchOne s it).calls = s.calls ∧ (dispatchOne s it).pending = s.pending := by
  unfold dispatchOne
  rw [if_pos h]
  exact ⟨rfl, rfl⟩

theorem drainAux_calls_pending (q : List Item) :
    ∀ s : SchedState, (∀ it ∈ q, it.address ∈ s.pending) →
      (drainAux q s).calls = s.calls := by
  induction q with
  | nil => intro s _; rfl
  | cons it rest ih =>
    intro s hall
    unfold drainAux
    by_cases h : s.active < MAX_CONCURRENT_REQUESTS
    · rw [if_pos h]
      have hmem : it.address ∈ ({ s with active := s.active + 1 } : SchedState).pending :=
        hall it (by simp)
      obtain ⟨hc, hp⟩ := dispatchOne_pending_waiter { s with active := s.active + 1 } it hmem
      have hside : ∀ it2 ∈ rest,
          it2.address ∈ (dispatchOne { s with active := s.active + 1 } it).pending := by
        intro it2 hit2
        rw [hp]
        exact hall it2 (by simp [hit2])
      rw [ih _ hside, hc]
    · rw [if_neg h]

theorem drainAux_calls_blocked (q : List Item) (s : SchedState)
    (h : ¬ s.active < MAX_CONCURRENT_REQUESTS) : (drainAux q s).calls = s.calls := by
  cases q with
  | nil => rfl
  | cons it rest =>
    unfold drainAux
    rw [if_neg h]

theorem drainQueue_calls_pending (s : SchedState)
    (h : ∀ it ∈ s.queue, it.address ∈ s.pending) :
    (drainQueue s).calls = s.calls :=
  drainAux_calls_pending s.queue _ h

theorem drainQueue_calls_blocked (s : SchedState)
    (h : ¬ s.active < MAX_CONCURRENT_REQUESTS) :
    (drainQueue s).calls = s.calls :=
  drainAux_calls_blocked s.queue _ h

/-- Dedup: submitting a work item for an address that already has an
in-flight resolution issues no new network resolution call. -/
theorem submit_no_new_call (s : SchedState) (c : Nat) (a : String) (now : Nat)
    (hq : s.queue ≠ [] → MAX_CONCURRENT_REQUESTS ≤ s.active)
    (hp : a ∈ s.pending) :
    (submitCard s c a now).calls = s.calls := by
  rcases submitCard_cases s c a now with
    ⟨_, _, _, _, _, hc⟩ | ⟨s2, heq, hq2, ha2, hp2, _, _, hc2, _⟩
  · exact hc
  · rw [heq]
    by_cases hnil : s2.queue = []
    · have hside : ∀ it ∈ ({ s2 with queue := s2.queue ++ [⟨c, a, s2.epoch⟩] } :
          SchedState).queue,
          it.address ∈ ({ s2 with queue := s2.queue ++ [⟨c, a, s2.epoch⟩] } :
            SchedState).pending := by
        intro it hit
        show it.address ∈ s2.pending
        have hit2 : it ∈ s2.queue ++ [⟨c, a, s2.epoch⟩] := hit
        rw [hnil] at hit2
        simp only [List.nil_append, List.mem_singleton] at hit2
        subst hit2
        show a ∈ s2.pending
        rw [hp2]
        exact hp
      rw [drainQueue_calls_pending _ hside]
      exact hc2
    · have hblock : ¬ ({ s2 with queue := s2.queue ++ [⟨c, a, s2.epoch⟩] } :
          SchedState).active < MAX_CONCURRENT_REQUESTS := by
        show ¬ s2.active < MAX_CONCURRENT_REQUESTS
        have h3 := hq (by rw [← hq2]; exact hnil)
        rw [ha2]
        omega
      rw [drainQueue_calls_blocked _ hblock]
      exact hc2

theorem drainQueue_of_nil (s : SchedState) (h : s.queue = []) : drainQueue s = s := by
  unfold drainQueue
  rw [h]
  show ({ s with queue := [] } : SchedState) = s
  cases s
  simp_all

theorem decDrain_of_nil (s : SchedState) (h : s.queue = []) :
    decDrain s = { s with active := s.active - 1 } := by
  unfold decDrain
  exact drainQueue_of_nil _ h

theorem decDrainN_fields_of_nil (n : Nat) :
    ∀ s : SchedState, s.queue = [] →
      (decDrainN n s).pending = s.pending ∧ (decDrainN n s).inflight = s.inflight ∧
      (decDrainN n s).queue = [] := by
  induction n with
  | zero => exact fun s h => ⟨rfl, rfl, h⟩
  | succ m ih =>
    intro s h
    have hred : decDrainN (m + 1) s = decDrainN m { s with active := s.active - 1 } := by
      show decDrainN m (decDrain s) = _
      rw [decDrain_of_nil s h]
    rw [hred]
    exact ih { s with active := s.active - 1 } h

/-- Removal on completion: when the resolution for a pending address
settles (with a success or an error result alike), its entry leaves the
pending table and it is no longer outstanding. -/
theorem complete_removes (s : SchedState) (a : String) (r : CResult) (now : Nat)
    (hinv : PendingInv s) (hq : s.queue = []) (hp : a ∈ s.pending) :
    a ∉ (completeCall s a r now).pending ∧
    a ∉ (completeCall s a r now).inflight.map Item.address := by
  obtain ⟨h1, h2, _⟩ := hinv
  unfold completeCall
  cases hfind : s.inflight.find? (fun it => it.address = a) with
  | none =>
    exfalso
    rw [h1] at hp
    rcases List.mem_map.mp hp with ⟨it, hit, hia⟩
    have := List.find?_eq_none.mp hfind it hit
    simp [hia] at this
  | some initiator =>
    simp only
    set s1 : SchedState := { s with
      cache := s.cache.setOp a r now,
      pending := eraseFirstStr s.pending a,
      inflight := eraseFirstAddr s.inflight a,
      waiters := s.waiters.filter (fun it => !(it.address = a)),
      renders := s.renders ++
        (RenderEvent.mk initiator.cardId initiator.epoch (.result r) s.epoch ::
         (s.waiters.filter (fun it => it.address = a)).map
           (fun it => RenderEvent.mk it.cardId it.epoch (.result r) s.epoch)) }
      with hs1
    have hq1 : s1.queue = [] := by
      rw [hs1]
      exact hq
    obtain ⟨hpend, hinf, _⟩ :=
      decDrainN_fields_of_nil (1 + (s.waiters.filter (fun it => it.address = a)).length) s1 hq1
    rw [hpend, hinf, hs1]
    constructor
    · exact eraseFirstStr_not_mem s.pending a h2
    · show a ∉ (eraseFirstAddr s.inflight a).map Item.address
      rw [eraseFirst_map_addr, ← h1]
      exact eraseFirstStr_not_mem s.pending a h2

/-- Same result for every recipient: every badge rendered by a
completion event carries the completed result — the initiator's card and
every deduplicated waiter receive the identical value. -/
theorem complete_renders_result (s : SchedState) (a : String) (r : CResult) (now : Nat) :
    ∀ ev ∈ (completeCall s a r now).renders.drop s.renders.length,
      ev.payload = RenderPayload.result r := by
  unfold completeCall
  cases hfind : s.inflight.find? (fun it => it.address = a) with
  | none =>
    intro ev hev
    rw [List.drop_length] at hev
    simp at hev
  | some initiator =>
    simp only
    intro ev hev
    rw [decDrainN_renders] at hev
    have : (s.renders ++
        (RenderEvent.mk initiator.cardId initiator.epoch (.result r) s.epoch ::
         (s.waiters.filter (fun it => it.address = a)).map
           (fun it => RenderEvent.mk it.cardId it.epoch (.result r) s.epoch))).drop
          s.renders.length =
        RenderEvent.mk initiator.cardId initiator.epoch (.result r) s.epoch ::
         (s.waiters.filter (fun it => it.address = a)).map
           (fun it => RenderEvent.mk it.cardId it.epoch (.result r) s.epoch) :=
      List.drop_left _ _
    rw [this] at hev
    rcases List.mem_cons.mp hev with hev | hev
    · rw [hev]
    · rcases List.mem_map.mp hev with ⟨it, _, hit⟩
      rw [← hit]

/-- C1: Deduplication and the pending-request table: (a) the
invariant "the pending table holds an address exactly while a resolution
for it is outstanding, at most one entry per address" is preserved by
every scheduler event (submission, completion — success or failure — and
navigation); (b) submitting a work item for an address with an
outstanding resolution issues no new network call; (c) a completion
removes the address from the table and from the outstanding set; (d) all
badges rendered by one completion carry the same result. -/
theorem C1_dedup_pending (s : SchedState) (hinv : PendingInv s) :
    (∀ e, PendingInv (schedStep s e)) ∧
    (∀ (c : Nat) (a : String) (now : Nat), a ∈ s.pending →
      (submitCard s c a now).calls = s.calls) ∧
    (∀ (a : String) (r : CResult) (now : Nat), s.queue = [] → a ∈ s.pending →
      a ∉ (completeCall s a r now).pending ∧
      a ∉ (completeCall s a r now).inflight.map Item.address) ∧
    (∀ (a : String) (r : CResult) (now : Nat),
      ∀ ev ∈ (completeCall s a r now).renders.drop s.renders.length,
        ev.payload = RenderPayload.result r) := by
  refine ⟨fun e => schedStep_preserves_inv s e hinv, ?_, ?_, ?_⟩
  · intro c a now hp
    exact submit_no_new_call s c a now hinv.2.2 hp
  · intro a r now hq hp
    exact complete_removes s a r now hinv hq hp
  · intro a r now
    exact complete_renders_result s a r now

/-- Closed witness for `C1_dedup_pending`: after one submission of
address "A", a second submission of "A" issues no new call (one call in
total), and the completion empties the pending table while rendering the
same result to both cards. -/
theorem C1_dedup_pending_witness :
    (submitCard (runEvents [.submit 1 "A" 0]) 2 "A" 0).calls
      = (runEvents [.submit 1 "A" 0]).calls ∧
    (runEvents [.submit 1 "A" 0]).calls = 1 ∧
    "A" ∉ (completeCall (runEvents [.submit 1 "A" 0, .submit 2 "A" 0])
      "A" (.ok "32 min" "A") 5).pending := by
  have hinv1 : PendingInv (runEvents [.submit 1 "A" 0]) := by
    refine ⟨by decide, by decide, ?_⟩
    intro h
    exact absurd (by decide : (runEvents [SchedEvent.submit 1 "A" 0]).queue = []) h
  have hinv2 : PendingInv (runEvents [.submit 1 "A" 0, .submit 2 "A" 0]) := by
    refine ⟨by decide, by decide, ?_⟩
    intro h
    exact absurd
      (by decide : (runEvents [SchedEvent.submit 1 "A" 0, SchedEvent.submit 2 "A" 0]).queue = [])
      h
  refine ⟨(C1_dedup_pending _ hinv1).2.1 2 "A" 0 (by decide), by decide, ?_⟩
  exact ((C1_dedup_pending _ hinv2).2.2.1 "A" (.ok "32 min" "A") 5
    (by decide) (by decide)).1

theorem filter_length_split {α : Type} (l : List α) (p : α → Bool) :
    (l.filter p).length + (l.filter (fun x => !(p x))).length = l.length := by
  induction l with
  | nil => rfl
  | cons x rest ih =>
    by_cases h : p x = true
    · simp [List.filter_cons, h]
      omega
    · have h' : p x = false := by
        cases hb : p x
        · rfl
        · exact absurd hb h
      simp [List.filter_cons, h']
      omega

theorem eraseFirstAddr_length (l : List Item) (a : String) (it : Item)
    (hit : it ∈ l) (ha : it.address = a) :
    (eraseFirstAddr l a).length + 1 = l.length := by
  induction l with
  | nil => simp at hit
  | cons x rest ih =>
    by_cases hx : x.address = a
    · simp [eraseFirstAddr, hx]
    · rcases List.mem_cons.mp hit with h | h
      · subst h
        exact absurd ha hx
      · simp only [eraseFirstAddr, hx, if_false, List.length_cons]
        rw [← ih h]

theorem dispatchOne_shape (s : SchedState) (it : Item) :
    (dispatchOne s it).inflight.length + (dispatchOne s it).waiters.length
      = s.inflight.length + s.waiters.length + 1 ∧
    (dispatchOne s it).active = s.active ∧
    (dispatchOne s it).dispatched = s.dispatched ++ [it] := by
  unfold dispatchOne
  by_cases h : it.address ∈ s.pending <;> simp [h] <;> omega

theorem drainAux_bound (q : List Item) :
    ∀ (s : SchedState) (k : Int),
      s.active = (s.inflight.length : Int) + (s.waiters.length : Int) + k →
      s.active ≤ MAX_CONCURRENT_REQUESTS →
      (drainAux q s).active =
        ((drainAux q s).inflight.length : Int) + ((drainAux q s).waiters.length : Int) + k ∧
      (drainAux q s).active ≤ MAX_CONCURRENT_REQUESTS := by
  induction q with
  | nil => intro s k h1 h2; exact ⟨h1, h2⟩
  | cons it rest ih =>
    intro s k h1 h2
    unfold drainAux
    by_cases h : s.active < MAX_CONCURRENT_REQUESTS
    · rw [if_pos h]
      obtain ⟨hlen, hact, _⟩ := dispatchOne_shape { s with active := s.active + 1 } it
      apply ih
      · rw [hact]
        show s.active + 1 = _
        have hlen2 : ((dispatchOne { s with active := s.active + 1 } it).inflight.length : Int)
            + ((dispatchOne { s with active := s.active + 1 } it).waiters.length : Int)
            = (s.inflight.length : Int) + (s.waiters.length : Int) + 1 := by
          have := congrArg (fun n : Nat => (n : Int)) hlen
          push_cast at this ⊢
          omega
        omega
      · rw [hact]
        show s.active + 1 ≤ MAX_CONCURRENT_REQUESTS
        omega
    · rw [if_neg h]
      exact ⟨h1, h2⟩

theorem drainQueue_bound (s : SchedState) (k : Int)
    (h1 : s.active = (s.inflight.length : Int) + (s.waiters.length : Int) + k)
    (h2 : s.active ≤ MAX_CONCURRENT_REQUESTS) :
    (drainQueue s).active =
      ((drainQueue s).inflight.length : Int) + ((drainQueue s).waiters.length : Int) + k ∧
    (drainQueue s).active ≤ MAX_CONCURRENT_REQUESTS :=
  drainAux_bound s.queue _ k h1 h2

/-- The concurrency invariant (between navigations): the active-request
counter equals the number of dispatched-but-unsettled items (initiators
of outstanding calls plus deduplicated waiters), and never exceeds
`MAX_CONCURRENT_REQUESTS`. -/
def BoundInv (s : SchedState) : Prop :=
  s.active = (s.inflight.length : Int) + (s.waiters.length : Int) ∧
  s.active ≤ MAX_CONCURRENT_REQUESTS

theorem decDrainN_bound (n : Nat) :
    ∀ s : SchedState,
      s.active = (s.inflight.length : Int) + (s.waiters.length : Int) + (n : Int) →
      s.active ≤ MAX_CONCURRENT_REQUESTS →
      BoundInv (decDrainN n s) := by
  induction n with
  | zero =>
    intro s h1 h2
    refine ⟨?_, h2⟩
    simpa using h1
  | succ m ih =>
    intro s h1 h2
    show BoundInv (decDrainN m (decDrain s))
    unfold decDrain
    have hstep := drainQueue_bound { s with active := s.active - 1 } (m : Int)
      (by show s.active - 1 = _; push_cast at h1 ⊢; omega)
      (by show s.active - 1 ≤ _; omega)
    exact ih _ hstep.1 hstep.2

/-- Invariant `BoundInv` is preserved by submissions. -/
theorem submit_preserves_bound (s : SchedState) (c : Nat) (a : String) (now : Nat)
    (h : BoundInv s) : BoundInv (submitCard s c a now) := by
  obtain ⟨h1, h2⟩ := h
  rcases submitCard_cases s c a now with
    ⟨_, ha, _, hi, hw, _⟩ | ⟨s2, heq, _, ha2, _, hi2, hw2, _, _⟩
  · exact ⟨by rw [ha, hi, hw, h1], by rw [ha]; exact h2⟩
  · rw [heq]
    have hstep := drainQueue_bound { s2 with queue := s2.queue ++ [⟨c, a, s2.epoch⟩] } 0
      (by show s2.active = _; rw [ha2, hi2, hw2] at *; omega)
      (by show s2.active ≤ _; rw [ha2]; exact h2)
    exact ⟨by simpa using hstep.1, hstep.2⟩

/-- Invariant `BoundInv` is preserved by completions. -/
theorem complete_preserves_bound (s : SchedState) (a : String) (r : CResult) (now : Nat)
    (h : BoundInv s) : BoundInv (completeCall s a r now) := by
  obtain ⟨h1, h2⟩ := h
  unfold completeCall
  cases hfind : s.inflight.find? (fun it => it.address = a) with
  | none => exact ⟨h1, h2⟩
  | some initiator =>
    simp only
    have hmem : initiator ∈ s.inflight := List.mem_of_find?_eq_some hfind
    have haddr : initiator.address = a := by
      have := List.find?_some hfind
      simpa using this
    have hinf : (eraseFirstAddr s.inflight a).length + 1 = s.inflight.length :=
      eraseFirstAddr_length s.inflight a initiator hmem haddr
    have hwl : (s.waiters.filter (fun it => it.address = a)).length +
        (s.waiters.filter (fun it => !(it.address = a))).length = s.waiters.length := by
      have := filter_length_split s.waiters (fun it => (it.address = a : Bool))
      simpa using this
    apply decDrainN_bound
    · show s.active = ((eraseFirstAddr s.inflight a).length : Int) +
        ((s.waiters.filter (fun it => !(it.address = a))).length : Int) +
        ((1 + (s.waiters.filter (fun it => it.address = a)).length : Nat) : Int)
      rw [h1]
      push_cast [← hinf, ← hwl]
      omega
    · exact h2

theorem drainAux_fifo (q : List Item) :
    ∀ s : SchedState, s.queue = [] →
      ∃ k, (drainAux q s).dispatched = s.dispatched ++ q.take k ∧
        (drainAux q s).queue = q.drop k := by
  induction q with
  | nil =>
    intro s hq
    refine ⟨0, ?_, ?_⟩
    · show s.dispatched = s.dispatched ++ ([] : List Item).take 0
      simp
    · show s.queue = ([] : List Item).drop 0
      simpa using hq
  | cons it rest ih =>
    intro s hq
    unfold drainAux
    by_cases h : s.active < MAX_CONCURRENT_REQUESTS
    · rw [if_pos h]
      obtain ⟨_, _, hdisp⟩ := dispatchOne_shape { s with active := s.active + 1 } it
      obtain ⟨k, hk1, hk2⟩ := ih (dispatchOne { s with active := s.active + 1 } it)
        (by rw [(dispatchOne_fields _ it).1]; exact hq)
      refine ⟨k + 1, ?_, ?_⟩
      · rw [hk1, hdisp]
        show (s.dispatched ++ [it]) ++ rest.take k = s.dispatched ++ (it :: rest.take k)
        simp
      · rw [hk2]
        rfl
    · rw [if_neg h]
      exact ⟨0, by simp, rfl⟩

/-- FIFO dispatch: one run of `processQueue` dispatches a prefix of the
queue, in arrival order, and leaves exactly the remaining suffix queued.
-/
theorem drainQueue_fifo (s : SchedState) :
    ∃ k, (drainQueue s).dispatched = s.dispatched ++ s.queue.take k ∧
      (drainQueue s).queue = s.queue.drop k :=
  drainAux_fifo s.queue _ rfl

/-- Counterexample to C2 as stated: a navigation teardown resets
`activeRequests` to 0 without cancelling the three in-flight calls, so
three further submissions on the next page dispatch three more calls and
six resolutions are outstanding at once. -/
theorem C2_bound_counterexample :
    MAX_CONCURRENT_REQUESTS <
      (((runEvents [.submit 1 "A" 0, .submit 2 "B" 0, .submit 3 "C" 0, .navigate,
        .submit 4 "D" 0, .submit 5 "E" 0, .submit 6 "F" 0]).inflight.length : Nat) : Int) := by
  decide

/-- C2 (amended): Between navigations the scheduler keeps the bound:
the concurrency invariant `BoundInv` (the active counter counts the
dispatched-but-unsettled items and stays at most `K = 3`) is preserved by
every submission and completion, and under it at most 3 resolutions are
outstanding; dispatch is FIFO — each queue drain dispatches a prefix of
the queue in arrival order.  (Amendment: a navigation teardown resets the
counter without cancelling in-flight calls, so across navigations the
bound on simultaneously outstanding calls can be exceeded — see the
counterexample.) -/
theorem C2_bound_fifo (s : SchedState) :
    (∀ (c : Nat) (a : String) (now : Nat), BoundInv s → BoundInv (submitCard s c a now)) ∧
    (∀ (a : String) (r : CResult) (now : Nat), BoundInv s →
      BoundInv (completeCall s a r now)) ∧
    (BoundInv s → ((s.inflight.length : Nat) : Int) ≤ MAX_CONCURRENT_REQUESTS) ∧
    (∃ k, (drainQueue s).dispatched = s.dispatched ++ s.queue.take k ∧
      (drainQueue s).queue = s.queue.drop k) := by
  refine ⟨?_, ?_, ?_, drainQueue_fifo s⟩
  · intro c a now h
    exact submit_preserves_bound s c a now h
  · intro a r now h
    exact complete_preserves_bound s a r now h
  · intro h
    obtain ⟨h1, h2⟩ := h
    omega

/-- Closed witness for `C2_bound_fifo`: after three submissions (no
navigation) the invariant holds and at most three calls are outstanding.
-/
theorem C2_bound_fifo_witness :
    ((runEvents [.submit 1 "A" 0, .submit 2 "B" 0, .submit 3 "C" 0,
      .submit 4 "D" 0]).inflight.length : Int) ≤ MAX_CONCURRENT_REQUESTS := by
  have hinv : BoundInv (runEvents
      [.submit 1 "A" 0, .submit 2 "B" 0, .submit 3 "C" 0, .submit 4 "D" 0]) := by
    refine ⟨by decide, by decide⟩
  exact (C2_bound_fifo _).2.2.1 hinv

/-- C3: The failing trace: a card is submitted on page epoch 0, the
user navigates away (teardown runs, epoch becomes 1), and then the
in-flight resolution for "A" completes.  The scheduler *renders the stale
result anyway* — `processCardRequest` calls `injectCommuteBadge` with no
"is this still the active page context" check — so the render log gains a
result badge whose card belongs to the torn-down epoch 0 while the
current epoch is 1. -/
theorem C3_stale_result_rendered :
    (runEvents [.submit 1 "A" 0, .navigate,
      .complete "A" (.ok "32 min" "A") 5]).renders =
      [⟨1, 0, .loading "A", 0⟩, ⟨1, 0, .result (.ok "32 min" "A"), 1⟩] ∧
    ∃ ev ∈ (runEvents [.submit 1 "A" 0, .navigate,
        .complete "A" (.ok "32 min" "A") 5]).renders,
      ev.payload = RenderPayload.result (CResult.ok "32 min" "A") ∧
      ev.cardEpoch < ev.renderEpoch := by
  constructor
  · decide
  · decide

end Pace
